import Mathlib

/-!
# Ray-tracing kernel: shapes, nearest-hit and shading

A shallow embedding of `Shapes.hpp` and `Material.hpp`.

Conventions of the embedding.

* The C++ `double` is idealised as an arbitrary linearly ordered field `K`
  (exact arithmetic; `ℚ` is used wherever a concrete input is evaluated).
  Rounding is therefore not modelled.
* `sqrt` of `<cmath>` is a parameter `sqrt : K → K` of every function that
  calls it (directly or through `normalize`).  Statements that need the square
  root to be exact say so in a hypothesis about the value it is applied to;
  `Rat.sqrt` is the instance used on concrete inputs.
* `INFINITY` is the top element of `WithTop K`.
* A `Material *` into the registry `objects` is the index of the material in the
  registry (`Option Nat`, `none` being `nullptr`).
* The globals `objects`, `lights` and `ambientLight` are explicit arguments.
* `Point.hpp`, `Ray.hpp`, `Transform.hpp`, `AABB.hpp` and `Scene.hpp` are not
  among the sources; the types and helpers they declare are modelled from the
  specification and marked as such.
-/

namespace Raytracing

/-! ## Vector math primitives -/

/-- Modelled from the spec: the `Vector` type of `Point.hpp`, a 3-component
direction or displacement. -/
@[ext]
structure Vector (K : Type) where
  x : K
  y : K
  z : K
deriving DecidableEq

/-- Modelled from the spec: the `Point` type of `Point.hpp`, a 3-component
location. -/
@[ext]
structure Point (K : Type) where
  x : K
  y : K
  z : K
deriving DecidableEq

section Model

variable {K : Type} [LinearOrderedField K]

/-- Constant `almostZero = 1e-8f` of `Shapes.hpp`, read as the decimal it denotes. -/
def almostZero (K : Type) [LinearOrderedField K] : K := 1 / 100000000

/-- Modelled from the spec: the default constructor `Vector()` of `Point.hpp`
(the zero vector). -/
def Vector.default : Vector K := ⟨0, 0, 0⟩

/-- Modelled from the spec: `Vector::dot` of `Point.hpp`, the dot product. -/
def Vector.dot (a b : Vector K) : K := a.x * b.x + a.y * b.y + a.z * b.z

/-- Modelled from the spec: `Vector + Vector` of `Point.hpp`. -/
def Vector.add (a b : Vector K) : Vector K := ⟨a.x + b.x, a.y + b.y, a.z + b.z⟩

/-- Modelled from the spec: `Vector - Vector` of `Point.hpp`. -/
def Vector.sub (a b : Vector K) : Vector K := ⟨a.x - b.x, a.y - b.y, a.z - b.z⟩

/-- Modelled from the spec: `Vector * double` of `Point.hpp`. -/
def Vector.scale (a : Vector K) (k : K) : Vector K := ⟨a.x * k, a.y * k, a.z * k⟩

/-- Modelled from the spec: `Vector / double` of `Point.hpp`. -/
def Vector.divide (a : Vector K) (k : K) : Vector K := ⟨a.x / k, a.y / k, a.z / k⟩

/-- Modelled from the spec: `Vector::elementWiseMultiplication` of `Point.hpp`,
the element-wise product. -/
def Vector.elementWiseMultiplication (a b : Vector K) : Vector K :=
  ⟨a.x * b.x, a.y * b.y, a.z * b.z⟩

/-- Modelled from the spec: `Vector::normalize` of `Point.hpp`, the vector divided
by its length (the length being the square root of the dot product with itself). -/
def Vector.normalize (sqrt : K → K) (a : Vector K) : Vector K :=
  a.divide (sqrt (a.dot a))

/-- Modelled from the spec: `Point - Point` of `Point.hpp`, the displacement
from the second point to the first. -/
def Point.sub (a b : Point K) : Vector K := ⟨a.x - b.x, a.y - b.y, a.z - b.z⟩

/-- Modelled from the spec: `Point + Vector` of `Point.hpp`. -/
def Point.addVec (a : Point K) (v : Vector K) : Point K := ⟨a.x + v.x, a.y + v.y, a.z + v.z⟩

/-- Modelled from the spec: `Point - Vector` of `Point.hpp`. -/
def Point.subVec (a : Point K) (v : Vector K) : Point K := ⟨a.x - v.x, a.y - v.y, a.z - v.z⟩

/-- Modelled from the spec: `minBound` of `AABB.hpp`, the componentwise minimum. -/
def minBound (a b : Point K) : Point K := ⟨min a.x b.x, min a.y b.y, min a.z b.z⟩

/-- Modelled from the spec: `maxBound` of `AABB.hpp`, the componentwise maximum. -/
def maxBound (a b : Point K) : Point K := ⟨max a.x b.x, max a.y b.y, max a.z b.z⟩

/-- Modelled from the spec: the `Matrix` type of `Transform.hpp`, a 4×4 affine
transform; `M i j` is `transformMatrix(i, j)`. -/
abbrev Matrix (K : Type) : Type := Fin 4 → Fin 4 → K

/-- Modelled from the spec: `Matrix * Point` of `Transform.hpp`, homogeneous
multiplication with `w = 1`. -/
def Matrix.mulPoint (M : Matrix K) (p : Point K) : Point K :=
  ⟨M 0 0 * p.x + M 0 1 * p.y + M 0 2 * p.z + M 0 3,
   M 1 0 * p.x + M 1 1 * p.y + M 1 2 * p.z + M 1 3,
   M 2 0 * p.x + M 2 1 * p.y + M 2 2 * p.z + M 2 3⟩

/-- Modelled from the spec: `Matrix * Vector` of `Transform.hpp`, homogeneous
multiplication with `w = 0`. -/
def Matrix.mulVector (M : Matrix K) (v : Vector K) : Vector K :=
  ⟨M 0 0 * v.x + M 0 1 * v.y + M 0 2 * v.z,
   M 1 0 * v.x + M 1 1 * v.y + M 1 2 * v.z,
   M 2 0 * v.x + M 2 1 * v.y + M 2 2 * v.z⟩

/-- Modelled from the spec: `Matrix::translation` of `Transform.hpp`, the identity
with the displacement in the fourth column. -/
def Matrix.translation (v : Vector K) : Matrix K := fun i j =>
  if j = 3 then (if i = 0 then v.x else if i = 1 then v.y else if i = 2 then v.z else 1)
  else if i = j then 1
  else 0

/-! ## Ray and bounding box -/

/-- Modelled from the spec: the `Ray` type of `Ray.hpp`, an origin (`from` in the
source) and a direction. -/
@[ext]
structure Ray (K : Type) where
  from_ : Point K
  direction : Vector K
deriving DecidableEq

/-- Modelled from the spec: `Ray::getPoint`, `origin + t·direction`. -/
def Ray.getPoint (ray : Ray K) (t : K) : Point K := ray.from_.addVec (ray.direction.scale t)

/-- Modelled from the spec: the two-point constructor `Ray(Point, Point)` of
`Ray.hpp`: the ray from the first point in the unit direction toward the second. -/
def Ray.towards (sqrt : K → K) (origin target : Point K) : Ray K :=
  ⟨origin, (target.sub origin).normalize sqrt⟩

/-- Modelled from the spec: the `AABB` type of `AABB.hpp`; `empty` is the default
`AABB()`, a sentinel with no extent, and `box` is the pair of corners. -/
inductive AABB (K : Type) where
  | empty : AABB K
  | box (min max : Point K) : AABB K
deriving DecidableEq

end Model

/-! ## Shapes (`Shapes.hpp`) -/

/-- Class `Sphere`: centre, cached bounding box and radius. -/
structure Sphere (K : Type) where
  center : Point K
  boundingBox : AABB K
  R : K
deriving DecidableEq

/-- Class `Plane`: unit normal, a point of the plane and a bounding box. -/
structure Plane (K : Type) where
  normalVec : Vector K
  P0 : Point K
  boundingBox : AABB K
deriving DecidableEq

/-- Class `Triangle : public Plane`.  `toPlane` is the `Plane` base subobject
(`Plane::normalVec`, `Plane::P0`, `Plane::boundingBox`); the members
`boundingBox` and `normalVec` declared again by `Triangle` are separate fields
that hide the inherited ones inside `Triangle`'s own member functions. -/
structure Triangle (K : Type) where
  toPlane : Plane K
  p0 : Point K
  p1 : Point K
  p2 : Point K
  boundingBox : AABB K
  normalVec : Vector K
  edge0 : Vector K
  edge1 : Vector K
  dot00 : K
  dot01 : K
  dot11 : K
  denom : K
deriving DecidableEq

section Model

variable {K : Type} [LinearOrderedField K]

/-- Constructor `Sphere::Sphere(center, radius)`. -/
def Sphere.new (center : Point K) (radius : K) : Sphere K :=
  { center := center
    R := radius
    boundingBox :=
      AABB.box (center.subVec ⟨radius, radius, radius⟩) (center.addVec ⟨radius, radius, radius⟩) }

/-- Method `Sphere::getPoint`. -/
def Sphere.getPoint (s : Sphere K) : Point K := s.center

/-- Method `Sphere::getNormal`. -/
def Sphere.getNormal (sqrt : K → K) (s : Sphere K) (ray : Ray K) (t : K) : Vector K :=
  let P := ray.getPoint t
  (P.sub s.center).normalize sqrt

/-- The local `B` of `Sphere::rayIntersect`. -/
def Sphere.coeffB (s : Sphere K) (ray : Ray K) : K :=
  -2 * (ray.from_.sub s.center).dot ray.direction

/-- The local `C` of `Sphere::rayIntersect`. -/
def Sphere.coeffC (s : Sphere K) (ray : Ray K) : K :=
  (ray.from_.sub s.center).dot (ray.from_.sub s.center) - s.R * s.R

/-- The local `delta` of `Sphere::rayIntersect`, the discriminant `B² − 4C`. -/
def Sphere.delta (s : Sphere K) (ray : Ray K) : K :=
  s.coeffB ray * s.coeffB ray - 4 * s.coeffC ray

/-- Method `Sphere::rayIntersect`. -/
def Sphere.rayIntersect (sqrt : K → K) (s : Sphere K) (ray : Ray K) : K :=
  let B := s.coeffB ray
  let delta := s.delta ray
  if delta < almostZero K then -1
  else
    let t0 := (B + sqrt delta) / 2
    let t1 := (B - sqrt delta) / 2
    if t1 > almostZero K then t1
    else if t0 > almostZero K then t0
    else -1

/-- Method `Sphere::getBoundingBox`. -/
def Sphere.getBoundingBox (s : Sphere K) : AABB K := s.boundingBox

/-- Method `Sphere::applyTransform`. -/
def Sphere.applyTransform (sqrt : K → K) (s : Sphere K) (transformMatrix : Matrix K) : Sphere K :=
  let sx := sqrt (transformMatrix 0 0 ^ 2 + transformMatrix 1 0 ^ 2 + transformMatrix 2 0 ^ 2)
  let sy := sqrt (transformMatrix 0 1 ^ 2 + transformMatrix 1 1 ^ 2 + transformMatrix 2 1 ^ 2)
  let sz := sqrt (transformMatrix 0 2 ^ 2 + transformMatrix 1 2 ^ 2 + transformMatrix 2 2 ^ 2)
  let scaleFactor := (sx + sy + sz) / 3
  { s with center := transformMatrix.mulPoint s.center, R := s.R * scaleFactor }

/-- Constructor `Plane::Plane(normal, planePoint)`. -/
def Plane.new (sqrt : K → K) (normal : Vector K) (planePoint : Point K) : Plane K :=
  { normalVec := normal.normalize sqrt
    P0 := planePoint
    boundingBox := AABB.empty }

/-- Method `Plane::getPoint`. -/
def Plane.getPoint (p : Plane K) : Point K := p.P0

/-- Method `Plane::setPlaneBB`. -/
def Plane.setPlaneBB (p : Plane K) (sceneBounds : AABB K) : Plane K :=
  { p with boundingBox := sceneBounds }

/-- Method `Plane::getBoundingBox`. -/
def Plane.getBoundingBox (p : Plane K) : AABB K := p.boundingBox

/-- Method `Plane::getNormal` (the parameter `t` is not used by the source). -/
def Plane.getNormal (p : Plane K) (ray : Ray K) (_t : K) : Vector K :=
  let align := ray.from_.sub p.P0
  if p.normalVec.dot align > almostZero K then p.normalVec
  else p.normalVec.scale (-1)

/-- Method `Plane::rayIntersect`. -/
def Plane.rayIntersect (p : Plane K) (ray : Ray K) : K :=
  let aux := ray.direction.dot p.normalVec
  if |aux| < almostZero K then -1
  else
    let t := (p.P0.sub ray.from_).dot p.normalVec / aux
    if t > almostZero K then t else -1

/-- Method `Plane::pointIntersect`. -/
def Plane.pointIntersect (p : Plane K) (ray : Ray K) : Point K :=
  let t := p.rayIntersect ray
  if t > almostZero K then ray.getPoint t else ray.from_

/-- Method `Plane::applyTransform`. -/
def Plane.applyTransform (sqrt : K → K) (p : Plane K) (transformMatrix : Matrix K) : Plane K :=
  { p with
    P0 := transformMatrix.mulPoint p.P0
    normalVec := (transformMatrix.mulVector p.normalVec).normalize sqrt }

/-- Constructor `Triangle::Triangle(p0, p1, p2, normalVec)`.  The base is built
by `Plane(normalVec, p0)`; the member `Triangle::normalVec` is not in the
initialiser list and is not assigned (the name `normalVec` in the constructor is
its parameter), so it keeps its default value. -/
def Triangle.new (sqrt : K → K) (p0 p1 p2 : Point K) (normalVec : Vector K) : Triangle K :=
  let edge0 := p1.sub p0
  let edge1 := p2.sub p0
  let dot00 := edge0.dot edge0
  let dot01 := edge0.dot edge1
  let dot11 := edge1.dot edge1
  let small := minBound (minBound p0 p1) p2
  let big := maxBound (maxBound p0 p1) p2
  { toPlane := Plane.new sqrt normalVec p0
    p0 := p0
    p1 := p1
    p2 := p2
    edge0 := edge0
    edge1 := edge1
    dot00 := dot00
    dot01 := dot01
    dot11 := dot11
    denom := dot00 * dot11 - dot01 * dot01
    boundingBox := AABB.box small big
    normalVec := Vector.default }

/-- The local `beta` of `Triangle::rayIntersect` at the plane parameter `t`. -/
def Triangle.beta (T : Triangle K) (ray : Ray K) (t : K) : K :=
  let C := (ray.getPoint t).sub T.p0
  (C.dot T.edge0 * T.dot11 - C.dot T.edge1 * T.dot01) / T.denom

/-- The local `gamma` of `Triangle::rayIntersect` at the plane parameter `t`. -/
def Triangle.gamma (T : Triangle K) (ray : Ray K) (t : K) : K :=
  let C := (ray.getPoint t).sub T.p0
  (C.dot T.edge1 * T.dot00 - C.dot T.edge0 * T.dot01) / T.denom

/-- The local `alpha` of `Triangle::rayIntersect` at the plane parameter `t`. -/
def Triangle.alpha (T : Triangle K) (ray : Ray K) (t : K) : K :=
  1 - T.beta ray t - T.gamma ray t

/-- Method `Triangle::rayIntersect`. -/
def Triangle.rayIntersect (T : Triangle K) (ray : Ray K) : K :=
  let t := T.toPlane.rayIntersect ray
  if t < almostZero K then -1
  else if T.denom = 0 then -1
  else
    let beta := T.beta ray t
    let gamma := T.gamma ray t
    let alpha := T.alpha ray t
    if alpha < almostZero K ∨ beta < almostZero K ∨ gamma < almostZero K then -1
    else t

/-- Method `Triangle::getBoundingBox`. -/
def Triangle.getBoundingBox (T : Triangle K) : AABB K := T.boundingBox

/-- Method `Triangle::applyTransform`: the three vertices and the member
`Triangle::normalVec` are assigned; nothing else is. -/
def Triangle.applyTransform (sqrt : K → K) (T : Triangle K) (transformMatrix : Matrix K) :
    Triangle K :=
  { T with
    p0 := transformMatrix.mulPoint T.p0
    p1 := transformMatrix.mulPoint T.p1
    p2 := transformMatrix.mulPoint T.p2
    normalVec := (transformMatrix.mulVector T.normalVec).normalize sqrt }

/-- Method `Triangle::getPoint`, inherited from `Plane`. -/
def Triangle.getPoint (T : Triangle K) : Point K := T.toPlane.getPoint

/-- Method `Triangle::getNormal`, inherited from `Plane`. -/
def Triangle.getNormal (T : Triangle K) (ray : Ray K) (t : K) : Vector K :=
  T.toPlane.getNormal ray t

end Model

/-- Class `Shape` with its three concrete variants; a `Shape *` is a value of
this type and a virtual call is a match on it. -/
inductive Shape (K : Type) where
  | sphere (s : Sphere K) : Shape K
  | plane (p : Plane K) : Shape K
  | triangle (T : Triangle K) : Shape K
deriving DecidableEq

section Model

variable {K : Type} [LinearOrderedField K]

/-- Virtual method `Shape::rayIntersect`. -/
def Shape.rayIntersect (sqrt : K → K) (shape : Shape K) (ray : Ray K) : K :=
  match shape with
  | .sphere s => s.rayIntersect sqrt ray
  | .plane p => p.rayIntersect ray
  | .triangle T => T.rayIntersect ray

/-- Virtual method `Shape::getNormal`. -/
def Shape.getNormal (sqrt : K → K) (shape : Shape K) (ray : Ray K) (t : K) : Vector K :=
  match shape with
  | .sphere s => s.getNormal sqrt ray t
  | .plane p => p.getNormal ray t
  | .triangle T => T.getNormal ray t

/-- Virtual method `Shape::getPoint`. -/
def Shape.getPoint (shape : Shape K) : Point K :=
  match shape with
  | .sphere s => s.getPoint
  | .plane p => p.getPoint
  | .triangle T => T.getPoint

/-- Virtual method `Shape::applyTransform`. -/
def Shape.applyTransform (sqrt : K → K) (shape : Shape K) (transformMatrix : Matrix K) :
    Shape K :=
  match shape with
  | .sphere s => .sphere (s.applyTransform sqrt transformMatrix)
  | .plane p => .plane (p.applyTransform sqrt transformMatrix)
  | .triangle T => .triangle (T.applyTransform sqrt transformMatrix)

/-- Virtual method `Shape::getBoundingBox`. -/
def Shape.getBoundingBox (shape : Shape K) : AABB K :=
  match shape with
  | .sphere s => s.getBoundingBox
  | .plane p => p.getBoundingBox
  | .triangle T => T.getBoundingBox

end Model

/-! ## Materials, nearest hit and shading (`Material.hpp`) -/

/-- Modelled from the spec: the `Light` type of `Scene.hpp`: position, colour and
scalar intensity. -/
structure Light (K : Type) where
  position : Point K
  color : Vector K
  intensity : K
deriving DecidableEq

/-- Class `Material`. -/
structure Material (K : Type) where
  shape : Shape K
  color : Vector K
  ka : K
  kd : K
  ks : K
  eta : ℤ
  ior : K
  kr : K
  kt : K
deriving DecidableEq

section Model

variable {K : Type} [LinearOrderedField K]

/-- Constructor `Material::Material`; the colour is divided by 255. -/
def Material.new (shape : Shape K) (color : Vector K) (ka kd ks kr kt : K) (eta : ℤ) (ior : K) :
    Material K :=
  { shape := shape, color := color.divide 255, ka := ka, kd := kd, ks := ks, kr := kr, kt := kt,
    eta := eta, ior := ior }

/-- Method `Material::getShape`. -/
def Material.getShape (m : Material K) : Shape K := m.shape

/-- Body of the loop of `Material::nearest` for the material at index `i`: the
pair is `(hit, intersectT)`. -/
def Material.nearestStep (sqrt : K → K) (ray : Ray K) (acc : Option Nat × WithTop K) (i : Nat)
    (material : Material K) : Option Nat × WithTop K :=
  let t := material.getShape.rayIntersect sqrt ray
  if t > 0 ∧ (t : WithTop K) < acc.2 then (some i, (t : WithTop K)) else acc

/-- The loop `for (Material &material : objects)` of `Material::nearest`, run on
the materials from index `i` on. -/
def Material.nearestLoop (sqrt : K → K) (ray : Ray K) :
    List (Material K) → Nat → Option Nat × WithTop K → Option Nat × WithTop K
  | [], _, acc => acc
  | material :: rest, i, acc =>
      Material.nearestLoop sqrt ray rest (i + 1) (Material.nearestStep sqrt ray acc i material)

/-- Static method `Material::nearest`. -/
def Material.nearest (sqrt : K → K) (objects : List (Material K)) (ray : Ray K) :
    Option Nat × WithTop K :=
  let res := Material.nearestLoop sqrt ray objects 0 (none, ⊤)
  if res.2 ≠ ⊤ then (res.1, res.2) else (none, ⊤)

/-- The test of `Material::shade` that decides whether a light contributes:
`shadow == nullptr || lightDirection.dot(light.position - *point) > t`. -/
def Material.lit (sqrt : K → K) (objects : List (Material K)) (point : Point K)
    (light : Light K) : Prop :=
  let lightDirection := (light.position.sub point).normalize sqrt
  let res := Material.nearest sqrt objects (Ray.towards sqrt point light.position)
  res.1 = none ∨ ((lightDirection.dot (light.position.sub point) : K) : WithTop K) > res.2

instance Material.litDecidable (sqrt : K → K) (objects : List (Material K)) (point : Point K)
    (light : Light K) : Decidable (Material.lit sqrt objects point light) := by
  unfold Material.lit
  exact inferInstance

/-- Body of the loop of `Material::shade` for one light. -/
def Material.shadeStep (sqrt : K → K) (objects : List (Material K)) (self : Material K)
    (point : Point K) (view normal : Vector K) (resColor : Vector K) (light : Light K) :
    Vector K :=
  let lightDirection := (light.position.sub point).normalize sqrt
  let r := ((normal.scale 2).scale (normal.dot lightDirection)).sub lightDirection
  if Material.lit sqrt objects point light then
    let dotdiff := lightDirection.dot normal
    let resColor1 :=
      if dotdiff > 0 then
        resColor.add ((((self.color.elementWiseMultiplication light.color).scale self.kd).scale
          dotdiff).scale light.intensity)
      else resColor
    let dotspec := r.dot view
    if dotspec > 0 then
      resColor1.add (((light.color.scale self.ks).scale (dotspec ^ self.eta)).scale light.intensity)
    else resColor1
  else resColor

/-- Method `Material::shade`. -/
def Material.shade (sqrt : K → K) (objects : List (Material K)) (lights : List (Light K))
    (ambientLight : Vector K) (self : Material K) (point : Point K) (view normal : Vector K) :
    Vector K :=
  lights.foldl (Material.shadeStep sqrt objects self point view normal)
    (self.color.elementWiseMultiplication (ambientLight.scale self.ka))

end Model

/-! ## Further helpers of the absent headers -/

section Model

variable {K : Type} [LinearOrderedField K]

/-- Modelled from the spec: `Matrix::scale` of `Transform.hpp`, the axis scale
by `(sx, sy, sz)`: the diagonal matrix with these entries and 1. -/
def Matrix.scale (sx sy sz : K) : Matrix K := fun i j =>
  if i = j then (if i = 0 then sx else if i = 1 then sy else if i = 2 then sz else 1)
  else 0

/-- Modelled from the spec: `Matrix * Matrix` of `Transform.hpp`, the matrix
product (the right factor is applied first). -/
def Matrix.mul (A B : Matrix K) : Matrix K := fun i j =>
  A i 0 * B 0 j + A i 1 * B 1 j + A i 2 * B 2 j + A i 3 * B 3 j

/-- Modelled from the spec: `Point + Point` of `Point.hpp`, componentwise. -/
def Point.add (a b : Point K) : Point K := ⟨a.x + b.x, a.y + b.y, a.z + b.z⟩

/-- Modelled from the spec: `Point / double` of `Point.hpp`, componentwise. -/
def Point.divide (a : Point K) (k : K) : Point K := ⟨a.x / k, a.y / k, a.z / k⟩

/-- Modelled from the spec: `double * Point` of `Point.hpp`, componentwise. -/
def Point.scale (k : K) (a : Point K) : Point K := ⟨k * a.x, k * a.y, k * a.z⟩

/-- Modelled from the spec: a point read as its displacement from the origin, the
form in which `Matrix::translation` receives a `Point`. -/
def Point.toVector (a : Point K) : Vector K := ⟨a.x, a.y, a.z⟩

/-- Modelled from the spec: the containment query of `AABB.hpp`: a point is inside
a box when each coordinate lies between the corners; the default box holds none. -/
def AABB.contains : AABB K → Point K → Prop
  | AABB.empty, _ => False
  | AABB.box lo hi, p =>
      lo.x ≤ p.x ∧ p.x ≤ hi.x ∧ lo.y ≤ p.y ∧ p.y ≤ hi.y ∧ lo.z ≤ p.z ∧ p.z ≤ hi.z

/-- Zero-area triangle in the words of the specification: the three vertices are
collinear or coincident, that is, the two edges out of `p0` are linearly dependent. -/
def ZeroArea (p0 p1 p2 : Point K) : Prop :=
  ∃ a b : K, (a ≠ 0 ∨ b ≠ 0) ∧
    ((p1.sub p0).scale a).add ((p2.sub p0).scale b) = ⟨0, 0, 0⟩

end Model

/-! ## Mesh reader (`MaterialObjReader.hpp`) -/

/-- Class `ObjReader`, restricted to the members read or written by `getCenter`
and `applyTransform`: the vertex list and the cached centre. -/
structure ObjReader (K : Type) where
  vertices : List (Point K)
  center : Point K

section Model

variable {K : Type} [LinearOrderedField K]

/-- Method `ObjReader::getCenter`. -/
def ObjReader.getCenter (r : ObjReader K) : Point K :=
  (r.vertices.foldl (fun (p v : Point K) => p.add v) (Point.mk 0 0 0)).divide
    (r.vertices.length : K)

/-- Last statement of the constructor `ObjReader::ObjReader`, `center = getCenter()`,
on the vertex list read from the file. -/
def ObjReader.new (vertices : List (Point K)) : ObjReader K :=
  { vertices := vertices
    center := ObjReader.getCenter { vertices := vertices, center := ⟨0, 0, 0⟩ } }

/-- The matrix that `ObjReader::applyTransform` assigns to its argument:
`translateBack * transformMatrix * translateOrigin`. -/
def ObjReader.conjugated (r : ObjReader K) (transformMatrix : Matrix K) : Matrix K :=
  let translateOrigin := Matrix.translation (Point.scale (-1) r.center).toVector
  let translateBack := Matrix.translation r.center.toVector
  (translateBack.mul transformMatrix).mul translateOrigin

/-- Method `ObjReader::applyTransform`; the second component is the value left in
the reference argument `transformMatrix`. -/
def ObjReader.applyTransform (r : ObjReader K) (transformMatrix : Matrix K) :
    ObjReader K × Matrix K :=
  let transformMatrix1 := r.conjugated transformMatrix
  let vertices1 := r.vertices.map (fun v => transformMatrix1.mulPoint v)
  ({ vertices := vertices1
     center := ObjReader.getCenter { vertices := vertices1, center := r.center } },
    transformMatrix1)

end Model

/-! ## Concrete inputs -/

/-- Floor of the shadow scene: the plane `z = 0` with normal `(0, 0, 1)`, white, with
`ka = kd = ks = 1`, `eta = 1` and no transmission. -/
def shadowFloor : Material ℚ :=
  Material.new (.plane (Plane.new Rat.sqrt ⟨0, 0, 1⟩ ⟨0, 0, 0⟩)) ⟨255, 255, 255⟩ 1 1 1 0 0 1 1

/-- Occluder of the shadow scene: the opaque plane at height `z` with normal `(0, 0, 1)`. -/
def shadowOccluder (z : ℚ) : Material ℚ :=
  Material.new (.plane (Plane.new Rat.sqrt ⟨0, 0, 1⟩ ⟨0, 0, z⟩)) ⟨255, 255, 255⟩ 1 1 1 0 0 1 1

/-- Light of the shadow scene: white, intensity 1, at `(0, 0, 4)`. -/
def shadowLight : Light ℚ := ⟨⟨0, 0, 4⟩, ⟨1, 1, 1⟩, 1⟩

/-- The triangle `(0,0,0)`, `(1,0,0)`, `(0,1,0)` with normal `(0,0,1)`. -/
def unitTriangle : Triangle ℚ := Triangle.new Rat.sqrt ⟨0, 0, 0⟩ ⟨1, 0, 0⟩ ⟨0, 1, 0⟩ ⟨0, 0, 1⟩

/-- The translation by `(0, 0, 5)`. -/
def liftMatrix : Matrix ℚ := Matrix.translation ⟨0, 0, 5⟩

/-- The triangle constructed from the vertices and the normal of `unitTriangle`
transformed by `liftMatrix`. -/
def rebuiltTriangle : Triangle ℚ :=
  Triangle.new Rat.sqrt (liftMatrix.mulPoint ⟨0, 0, 0⟩) (liftMatrix.mulPoint ⟨1, 0, 0⟩)
    (liftMatrix.mulPoint ⟨0, 1, 0⟩) (liftMatrix.mulVector ⟨0, 0, 1⟩)

/-- The ray from `(0.25, 0.25, 6)` with direction `(0, 0, -1)`. -/
def probeRay : Ray ℚ := ⟨⟨1 / 4, 1 / 4, 6⟩, ⟨0, 0, -1⟩⟩

/-- The ray from `(0.25, 0.25, 1)` toward `(0.25, 0.25, 0)`. -/
def hitRay : Ray ℚ := Ray.towards Rat.sqrt ⟨1 / 4, 1 / 4, 1⟩ ⟨1 / 4, 1 / 4, 0⟩

/-- The ray from `(0.25, 0.25, 1)` toward `(2, 2, 0)`. -/
def missRay : Ray ℚ := Ray.towards Rat.sqrt ⟨1 / 4, 1 / 4, 1⟩ ⟨2, 2, 0⟩

/-- The sphere of radius 1 centred at the origin. -/
def unitSphere : Sphere ℚ := Sphere.new ⟨0, 0, 0⟩ 1

/-- The ray from `(0, 0, -3)` with direction `(0, 0, 1)`, through the centre of `unitSphere`. -/
def axisRay : Ray ℚ := ⟨⟨0, 0, -3⟩, ⟨0, 0, 1⟩⟩

/-- The ray from `(1, 0, -5)` with direction `(0, 0, 1)`, tangent to `unitSphere`. -/
def tangentRay : Ray ℚ := ⟨⟨1, 0, -5⟩, ⟨0, 0, 1⟩⟩

/-- The sphere of radius `1/100000` centred at the origin. -/
def tinySphere : Sphere ℚ := Sphere.new ⟨0, 0, 0⟩ (1 / 100000)

/-- The ray that starts at `1·u` with direction `−u` for `u = (1, 0, 0)`. -/
def inwardRay : Ray ℚ := ⟨(Point.mk 0 0 0).addVec ((Vector.mk 1 0 0).scale 1), (Vector.mk 1 0 0).scale (-1)⟩

/-- The plane `z = 0` with unit normal `(0, 0, 1)`. -/
def grazingPlane : Plane ℚ := ⟨⟨0, 0, 1⟩, ⟨0, 0, 0⟩, AABB.empty⟩

/-- A ray whose origin is at height `1e-9` above `grazingPlane`. -/
def grazingRay : Ray ℚ := ⟨⟨0, 0, 1 / 1000000000⟩, ⟨0, 0, -1⟩⟩

/-- The uniform scale by `−2`. -/
def mirrorMatrix : Matrix ℚ := Matrix.scale (-2) (-2) (-2)

/-- The reader of a mesh with the two vertices `(0,0,0)` and `(2,0,0)`. -/
def twoVertexReader : ObjReader ℚ := ObjReader.new [⟨0, 0, 0⟩, ⟨2, 0, 0⟩]

/-- The uniform scale by 3. -/
def tripleMatrix : Matrix ℚ := Matrix.scale 3 3 3

/-! ## Theorems -/

section Theorems

variable {K : Type} [LinearOrderedField K]

/-! ### Nearest hit -/

/-- The two outcomes of one iteration of the loop of `Material::nearest`. -/
theorem nearestStep_cases (sqrt : K → K) (ray : Ray K) (acc : Option Nat × WithTop K) (i : Nat)
    (m : Material K) :
    (Material.nearestStep sqrt ray acc i m = acc ∧
        ¬ (m.getShape.rayIntersect sqrt ray > 0 ∧
          ((m.getShape.rayIntersect sqrt ray : K) : WithTop K) < acc.2)) ∨
      (Material.nearestStep sqrt ray acc i m
          = (some i, ((m.getShape.rayIntersect sqrt ray : K) : WithTop K)) ∧
        m.getShape.rayIntersect sqrt ray > 0 ∧
          ((m.getShape.rayIntersect sqrt ray : K) : WithTop K) < acc.2) := by
  unfold Material.nearestStep
  by_cases h : m.getShape.rayIntersect sqrt ray > 0 ∧
      ((m.getShape.rayIntersect sqrt ray : K) : WithTop K) < acc.2
  · right
    exact ⟨by simp only [if_pos h], h⟩
  · left
    exact ⟨by simp only [if_neg h], h⟩

/-- Invariant of the loop of `Material::nearest`: the running parameter never
increases, it is at most every positive intersection parameter seen, and it is
either the initial one or the parameter of the first material that attains it. -/
theorem nearestLoop_spec (sqrt : K → K) (ray : Ray K) :
    ∀ (l : List (Material K)) (i : Nat) (acc : Option Nat × WithTop K),
      (Material.nearestLoop sqrt ray l i acc).2 ≤ acc.2 ∧
      (∀ m ∈ l, 0 < m.getShape.rayIntersect sqrt ray →
        (Material.nearestLoop sqrt ray l i acc).2
          ≤ ((m.getShape.rayIntersect sqrt ray : K) : WithTop K)) ∧
      (Material.nearestLoop sqrt ray l i acc = acc ∨
        ∃ j m, l[j]? = some m ∧
          Material.nearestLoop sqrt ray l i acc
            = (some (i + j), ((m.getShape.rayIntersect sqrt ray : K) : WithTop K)) ∧
          0 < m.getShape.rayIntersect sqrt ray ∧
          ((m.getShape.rayIntersect sqrt ray : K) : WithTop K) < acc.2 ∧
          ∀ j2 m2, j2 < j → l[j2]? = some m2 → 0 < m2.getShape.rayIntersect sqrt ray →
            m.getShape.rayIntersect sqrt ray < m2.getShape.rayIntersect sqrt ray) := by
  intro l
  induction l with
  | nil =>
    intro i acc
    simp [Material.nearestLoop]
  | cons a rest ih =>
    intro i acc
    simp only [Material.nearestLoop]
    obtain ⟨hle, hmin, hres⟩ := ih (i + 1) (Material.nearestStep sqrt ray acc i a)
    have hstep := nearestStep_cases sqrt ray acc i a
    have hacc : (Material.nearestStep sqrt ray acc i a).2 ≤ acc.2 := by
      rcases hstep with ⟨h, _⟩ | ⟨h, _, hlt⟩
      · rw [h]
      · rw [h]; exact le_of_lt hlt
    have ha : 0 < a.getShape.rayIntersect sqrt ray →
        (Material.nearestStep sqrt ray acc i a).2
          ≤ ((a.getShape.rayIntersect sqrt ray : K) : WithTop K) := by
      intro hpos
      rcases hstep with ⟨h, hn⟩ | ⟨h, _, _⟩
      · rw [h]
        by_contra hc
        exact hn ⟨hpos, lt_of_not_le hc⟩
      · rw [h]
    refine ⟨le_trans hle hacc, ?_, ?_⟩
    · intro m hm hpos
      rcases List.mem_cons.mp hm with rfl | hm
      · exact le_trans hle (ha hpos)
      · exact hmin m hm hpos
    · rcases hres with hres | ⟨j, m, hj, hres, hpos, hlt, hfirst⟩
      · rcases hstep with ⟨h, _⟩ | ⟨h, hpos, hlt⟩
        · left; rw [hres, h]
        · right
          refine ⟨0, a, by simp, by rw [hres, h]; simp, hpos, hlt, ?_⟩
          intro j2 m2 hj2
          exact absurd hj2 (Nat.not_lt_zero _)
      · right
        refine ⟨j + 1, m, by simpa using hj, by rw [hres]; simp [Nat.add_assoc, Nat.add_comm 1 j],
          hpos, lt_of_lt_of_le hlt hacc, ?_⟩
        intro j2 m2 hj2 hm2 hpos2
        cases j2 with
        | zero =>
          simp at hm2
          subst hm2
          have := lt_of_lt_of_le hlt (ha hpos2)
          exact WithTop.coe_lt_coe.mp this
        | succ j3 =>
          exact hfirst j3 m2 (Nat.lt_of_succ_lt_succ hj2) (by simpa using hm2) hpos2

/-- A material whose shape is not hit at a positive parameter leaves the
accumulator of `Material::nearest` unchanged. -/
theorem nearestStep_skip (sqrt : K → K) (ray : Ray K) (acc : Option Nat × WithTop K) (i : Nat)
    (m : Material K) (h : ¬ 0 < m.getShape.rayIntersect sqrt ray) :
    Material.nearestStep sqrt ray acc i m = acc := by
  rcases nearestStep_cases sqrt ray acc i m with ⟨h1, _⟩ | ⟨_, hpos, _⟩
  · exact h1
  · exact absurd hpos h

/-- A registry of two materials of which only the second is hit. -/
theorem nearest_second_only (sqrt : K → K) (a b : Material K) (ray : Ray K)
    (ha : ¬ 0 < a.getShape.rayIntersect sqrt ray) (hb : 0 < b.getShape.rayIntersect sqrt ray) :
    Material.nearest sqrt [a, b] ray
      = (some 1, ((b.getShape.rayIntersect sqrt ray : K) : WithTop K)) := by
  have hloop : Material.nearestLoop sqrt ray [a, b] 0 (none, ⊤)
      = (some 1, ((b.getShape.rayIntersect sqrt ray : K) : WithTop K)) := by
    simp only [Material.nearestLoop, nearestStep_skip sqrt ray _ 0 a ha]
    rcases nearestStep_cases sqrt ray (none, ⊤) (0 + 1) b with ⟨_, hn⟩ | ⟨h1, _, _⟩
    · exact absurd ⟨hb, WithTop.coe_lt_top _⟩ hn
    · exact h1
  unfold Material.nearest
  rw [hloop]
  simp only [ne_eq, WithTop.coe_ne_top, not_false_eq_true, if_true]

/-- C2: when some registered shape is hit at a strictly positive parameter,
`Material::nearest` returns a registered material (by its index) together with
its own intersection parameter `t`, and `t` is the minimum of the strictly
positive intersection parameters of the whole registry. -/
theorem nearest_returns_minimum_positive (sqrt : K → K) (objects : List (Material K))
    (ray : Ray K) (h : ∃ m ∈ objects, 0 < m.getShape.rayIntersect sqrt ray) :
    ∃ (i : Nat) (m : Material K) (t : K),
      Material.nearest sqrt objects ray = (some i, (t : WithTop K)) ∧
      objects[i]? = some m ∧
      m.getShape.rayIntersect sqrt ray = t ∧
      0 < t ∧
      ∀ m2 ∈ objects, 0 < m2.getShape.rayIntersect sqrt ray →
        t ≤ m2.getShape.rayIntersect sqrt ray := by
  obtain ⟨m0, hm0, hpos0⟩ := h
  obtain ⟨_, hmin, hres⟩ := nearestLoop_spec sqrt ray objects 0 (none, ⊤)
  have hfin : (Material.nearestLoop sqrt ray objects 0 (none, ⊤)).2 ≠ ⊤ := by
    intro htop
    have h1 := hmin m0 hm0 hpos0
    rw [htop] at h1
    exact absurd h1 (not_le_of_lt (WithTop.coe_lt_top _))
  rcases hres with hres | ⟨j, m, hj, hres, hpos, _, _⟩
  · rw [hres] at hfin
    exact absurd rfl hfin
  · refine ⟨j, m, m.getShape.rayIntersect sqrt ray, ?_, hj, rfl, hpos, ?_⟩
    · unfold Material.nearest
      simp only [if_pos hfin]
      rw [hres]
      simp
    · intro m2 hm2 hpos2
      have h1 := hmin m2 hm2 hpos2
      rw [hres] at h1
      exact WithTop.coe_le_coe.mp h1

/-- C3: when no registered shape is hit at a parameter greater than 0 (in
particular when the registry is empty), `Material::nearest` returns
`(nullptr, INFINITY)`. -/
theorem nearest_no_hit (sqrt : K → K) (objects : List (Material K)) (ray : Ray K)
    (h : ∀ m ∈ objects, ¬ 0 < m.getShape.rayIntersect sqrt ray) :
    Material.nearest sqrt objects ray = (none, ⊤) := by
  obtain ⟨_, _, hres⟩ := nearestLoop_spec sqrt ray objects 0 (none, ⊤)
  rcases hres with hres | ⟨j, m, hj, _, hpos, _, _⟩
  · unfold Material.nearest
    rw [hres]
    simp
  · exact absurd hpos (h m (List.getElem?_mem hj))

/-! ### Plane -/

/-- The threshold `almostZero` is positive. -/
theorem almostZero_pos : (0 : K) < almostZero K := by
  unfold almostZero
  positivity

/-- The three outcomes of `Plane::rayIntersect`. -/
theorem plane_rayIntersect_cases (p : Plane K) (ray : Ray K) :
    (|ray.direction.dot p.normalVec| < almostZero K ∧ p.rayIntersect ray = -1) ∨
    (¬ |ray.direction.dot p.normalVec| < almostZero K ∧
      almostZero K < (p.P0.sub ray.from_).dot p.normalVec / ray.direction.dot p.normalVec ∧
      p.rayIntersect ray
        = (p.P0.sub ray.from_).dot p.normalVec / ray.direction.dot p.normalVec) ∨
    (¬ |ray.direction.dot p.normalVec| < almostZero K ∧
      ¬ almostZero K < (p.P0.sub ray.from_).dot p.normalVec / ray.direction.dot p.normalVec ∧
      p.rayIntersect ray = -1) := by
  unfold Plane.rayIntersect
  by_cases h1 : |ray.direction.dot p.normalVec| < almostZero K
  · left
    exact ⟨h1, by simp only [if_pos h1]⟩
  · by_cases h2 : almostZero K
        < (p.P0.sub ray.from_).dot p.normalVec / ray.direction.dot p.normalVec
    · right; left
      refine ⟨h1, h2, ?_⟩
      simp only [if_neg h1, gt_iff_lt, if_pos h2]
    · right; right
      refine ⟨h1, h2, ?_⟩
      simp only [if_neg h1, gt_iff_lt, if_neg h2]

/-- A hit reported by `Plane::rayIntersect` lies on the plane. -/
theorem plane_hit_on_plane (p : Plane K) (ray : Ray K) (h : p.rayIntersect ray ≠ -1) :
    ((ray.getPoint (p.rayIntersect ray)).sub p.P0).dot p.normalVec = 0 := by
  rcases plane_rayIntersect_cases p ray with ⟨_, h1⟩ | ⟨hpar, _, h1⟩ | ⟨_, _, h1⟩
  · exact absurd h1 h
  · have haux : ray.direction.dot p.normalVec ≠ 0 := by
      intro h0
      apply hpar
      rw [h0, abs_zero]
      exact almostZero_pos
    rw [h1]
    simp only [Vector.dot, Point.sub, Ray.getPoint, Point.addVec, Vector.scale] at haux ⊢
    field_simp
    ring
  · exact absurd h1 h

/-- C9: `Plane::rayIntersect` returns -1 on a parallel ray (`|d·n| < almostZero`);
otherwise, with `t = ((P0 − o)·n) / (d·n)`, it returns `t` when `t > almostZero`
and -1 when `t ≤ almostZero`; and every returned hit lies on the plane. -/
theorem plane_rayIntersect_contract (p : Plane K) (ray : Ray K) :
    (|ray.direction.dot p.normalVec| < almostZero K → p.rayIntersect ray = -1) ∧
    (¬ |ray.direction.dot p.normalVec| < almostZero K →
      ((p.P0.sub ray.from_).dot p.normalVec / ray.direction.dot p.normalVec > almostZero K →
        p.rayIntersect ray
          = (p.P0.sub ray.from_).dot p.normalVec / ray.direction.dot p.normalVec) ∧
      ((p.P0.sub ray.from_).dot p.normalVec / ray.direction.dot p.normalVec ≤ almostZero K →
        p.rayIntersect ray = -1)) ∧
    (p.rayIntersect ray ≠ -1 →
      ((ray.getPoint (p.rayIntersect ray)).sub p.P0).dot p.normalVec = 0) := by
  refine ⟨?_, ?_, plane_hit_on_plane p ray⟩
  · intro hpar
    rcases plane_rayIntersect_cases p ray with ⟨_, h1⟩ | ⟨hn, _, _⟩ | ⟨hn, _, _⟩
    · exact h1
    · exact absurd hpar hn
    · exact absurd hpar hn
  · intro hpar
    rcases plane_rayIntersect_cases p ray with ⟨hn, _⟩ | ⟨_, ht, h1⟩ | ⟨_, ht, h1⟩
    · exact absurd hn hpar
    · exact ⟨fun _ => h1, fun hle => absurd ht (not_lt_of_le hle)⟩
    · exact ⟨fun hgt => absurd hgt ht, fun _ => h1⟩

/-- C10 (amended): `Plane::getNormal` returns `n` or `−n`; the returned vector
`r` satisfies `r·(origin − P0) ≥ −almostZero`, and `r·(origin − P0) ≥ 0` unless
`0 < n·(origin − P0) ≤ almostZero`, in which case `−n` is returned. -/
theorem plane_getNormal_facing (p : Plane K) (ray : Ray K) (t : K) :
    (p.getNormal ray t = p.normalVec ∨ p.getNormal ray t = p.normalVec.scale (-1)) ∧
    -almostZero K ≤ (p.getNormal ray t).dot (ray.from_.sub p.P0) ∧
    (¬ (0 < p.normalVec.dot (ray.from_.sub p.P0) ∧
        p.normalVec.dot (ray.from_.sub p.P0) ≤ almostZero K) →
      0 ≤ (p.getNormal ray t).dot (ray.from_.sub p.P0)) ∧
    (0 < p.normalVec.dot (ray.from_.sub p.P0) ∧
        p.normalVec.dot (ray.from_.sub p.P0) ≤ almostZero K →
      p.getNormal ray t = p.normalVec.scale (-1)) := by
  have hneg : (p.normalVec.scale (-1)).dot (ray.from_.sub p.P0)
      = -(p.normalVec.dot (ray.from_.sub p.P0)) := by
    simp only [Vector.dot, Vector.scale]
    ring
  have hpos : (0 : K) < almostZero K := almostZero_pos
  by_cases h : p.normalVec.dot (ray.from_.sub p.P0) > almostZero K
  · have hget : p.getNormal ray t = p.normalVec := by
      unfold Plane.getNormal
      simp only [if_pos h]
    rw [hget]
    refine ⟨Or.inl rfl, ?_, ?_, ?_⟩
    · linarith
    · intro _; linarith
    · rintro ⟨_, hle⟩
      exact absurd h (not_lt_of_le hle)
  · have hget : p.getNormal ray t = p.normalVec.scale (-1) := by
      unfold Plane.getNormal
      simp only [if_neg h]
    rw [hget, hneg]
    have hle := le_of_not_lt h
    refine ⟨Or.inr rfl, ?_, ?_, ?_⟩
    · linarith
    · intro hband
      by_contra hc
      apply hband
      exact ⟨by linarith, hle⟩
    · intro _; rfl

/-! ### Sphere -/

/-- Below the threshold `Sphere::rayIntersect` takes the early return. -/
theorem sphere_rayIntersect_of_small (sqrt : K → K) (s : Sphere K) (ray : Ray K)
    (h : s.delta ray < almostZero K) : s.rayIntersect sqrt ray = -1 := by
  unfold Sphere.rayIntersect
  simp only [if_pos h]

/-- The outcomes of `Sphere::rayIntersect` once the discriminant passes the threshold. -/
theorem sphere_rayIntersect_of_large (sqrt : K → K) (s : Sphere K) (ray : Ray K)
    (h : almostZero K ≤ s.delta ray) :
    ((s.coeffB ray - sqrt (s.delta ray)) / 2 > almostZero K →
      s.rayIntersect sqrt ray = (s.coeffB ray - sqrt (s.delta ray)) / 2) ∧
    (¬ (s.coeffB ray - sqrt (s.delta ray)) / 2 > almostZero K →
      (s.coeffB ray + sqrt (s.delta ray)) / 2 > almostZero K →
      s.rayIntersect sqrt ray = (s.coeffB ray + sqrt (s.delta ray)) / 2) ∧
    (¬ (s.coeffB ray - sqrt (s.delta ray)) / 2 > almostZero K →
      ¬ (s.coeffB ray + sqrt (s.delta ray)) / 2 > almostZero K →
      s.rayIntersect sqrt ray = -1) := by
  have hn : ¬ s.delta ray < almostZero K := not_lt_of_le h
  unfold Sphere.rayIntersect
  refine ⟨?_, ?_, ?_⟩
  · intro h1
    simp only [if_neg hn, if_pos h1]
  · intro h1 h0
    simp only [if_neg hn, if_neg h1, if_pos h0]
  · intro h1 h0
    simp only [if_neg hn, if_neg h1, if_neg h0]

/-- For a unit direction, the point at parameter `t` is on the sphere exactly when
`t` is a root of `t² − B·t + C`. -/
theorem sphere_on_surface_iff (s : Sphere K) (ray : Ray K)
    (hunit : ray.direction.dot ray.direction = 1) (t : K) :
    ((ray.getPoint t).sub s.center).dot ((ray.getPoint t).sub s.center) = s.R * s.R ↔
      t * t - s.coeffB ray * t + s.coeffC ray = 0 := by
  simp only [Vector.dot, Point.sub, Ray.getPoint, Point.addVec, Vector.scale, Sphere.coeffB,
    Sphere.coeffC] at hunit ⊢
  constructor
  · intro h
    linear_combination h - t * t * hunit
  · intro h
    linear_combination h + t * t * hunit

/-- C6: for a unit direction and a discriminant of at least `almostZero` whose
square root is exact, `Sphere::rayIntersect` returns the smaller root when it
exceeds `almostZero`, otherwise the larger root when that exceeds `almostZero`,
otherwise -1; the value returned is the least parameter `t > almostZero` with
`|o + t·d − c|² = R²` when such a parameter exists, and -1 when none exists. -/
theorem sphere_rayIntersect_least_root (sqrt : K → K) (s : Sphere K) (ray : Ray K)
    (hunit : ray.direction.dot ray.direction = 1)
    (hdelta : almostZero K ≤ s.delta ray)
    (hs0 : 0 ≤ sqrt (s.delta ray))
    (hs : sqrt (s.delta ray) * sqrt (s.delta ray) = s.delta ray) :
    ((s.coeffB ray - sqrt (s.delta ray)) / 2 > almostZero K →
      s.rayIntersect sqrt ray = (s.coeffB ray - sqrt (s.delta ray)) / 2) ∧
    (¬ (s.coeffB ray - sqrt (s.delta ray)) / 2 > almostZero K →
      (s.coeffB ray + sqrt (s.delta ray)) / 2 > almostZero K →
      s.rayIntersect sqrt ray = (s.coeffB ray + sqrt (s.delta ray)) / 2) ∧
    (¬ (s.coeffB ray - sqrt (s.delta ray)) / 2 > almostZero K →
      ¬ (s.coeffB ray + sqrt (s.delta ray)) / 2 > almostZero K →
      s.rayIntersect sqrt ray = -1) ∧
    ((∃ t, almostZero K < t ∧
        ((ray.getPoint t).sub s.center).dot ((ray.getPoint t).sub s.center) = s.R * s.R) →
      almostZero K < s.rayIntersect sqrt ray ∧
      ((ray.getPoint (s.rayIntersect sqrt ray)).sub s.center).dot
          ((ray.getPoint (s.rayIntersect sqrt ray)).sub s.center) = s.R * s.R ∧
      ∀ t, almostZero K < t →
        ((ray.getPoint t).sub s.center).dot ((ray.getPoint t).sub s.center) = s.R * s.R →
        s.rayIntersect sqrt ray ≤ t) ∧
    ((¬ ∃ t, almostZero K < t ∧
        ((ray.getPoint t).sub s.center).dot ((ray.getPoint t).sub s.center) = s.R * s.R) →
      s.rayIntersect sqrt ray = -1) := by
  obtain ⟨hsmall, hlarge, hnone⟩ := sphere_rayIntersect_of_large sqrt s ray hdelta
  -- the roots of the quadratic are exactly `t1` and `t0`
  have hroot : ∀ t : K, t * t - s.coeffB ray * t + s.coeffC ray = 0 ↔
      t = (s.coeffB ray - sqrt (s.delta ray)) / 2 ∨
        t = (s.coeffB ray + sqrt (s.delta ray)) / 2 := by
    intro t
    have hfac : t * t - s.coeffB ray * t + s.coeffC ray
        = (t - (s.coeffB ray - sqrt (s.delta ray)) / 2)
          * (t - (s.coeffB ray + sqrt (s.delta ray)) / 2) := by
      have hd : s.delta ray = s.coeffB ray * s.coeffB ray - 4 * s.coeffC ray := rfl
      rw [hd] at hs
      rw [hd]
      linear_combination (1 / 4 : K) * hs
    rw [hfac, mul_eq_zero, sub_eq_zero, sub_eq_zero]
  have hord : (s.coeffB ray - sqrt (s.delta ray)) / 2
      ≤ (s.coeffB ray + sqrt (s.delta ray)) / 2 := by linarith
  refine ⟨hsmall, hlarge, hnone, ?_, ?_⟩
  · rintro ⟨t, ht, hon⟩
    rcases (hroot t).mp ((sphere_on_surface_iff s ray hunit t).mp hon) with h1 | h0
    · -- the smaller root is valid
      have hgt : (s.coeffB ray - sqrt (s.delta ray)) / 2 > almostZero K := by
        rw [← h1]; exact ht
      rw [hsmall hgt]
      refine ⟨hgt, ?_, ?_⟩
      · exact (sphere_on_surface_iff s ray hunit _).mpr ((hroot _).mpr (Or.inl rfl))
      · intro t2 _ hon2
        rcases (hroot t2).mp ((sphere_on_surface_iff s ray hunit t2).mp hon2) with h | h
        · exact le_of_eq h.symm
        · rw [h]; exact hord
    · have hgt0 : (s.coeffB ray + sqrt (s.delta ray)) / 2 > almostZero K := by
        rw [← h0]; exact ht
      by_cases hgt : (s.coeffB ray - sqrt (s.delta ray)) / 2 > almostZero K
      · rw [hsmall hgt]
        refine ⟨hgt, ?_, ?_⟩
        · exact (sphere_on_surface_iff s ray hunit _).mpr ((hroot _).mpr (Or.inl rfl))
        · intro t2 _ hon2
          rcases (hroot t2).mp ((sphere_on_surface_iff s ray hunit t2).mp hon2) with h | h
          · exact le_of_eq h.symm
          · rw [h]; exact hord
      · rw [hlarge hgt hgt0]
        refine ⟨hgt0, ?_, ?_⟩
        · exact (sphere_on_surface_iff s ray hunit _).mpr ((hroot _).mpr (Or.inr rfl))
        · intro t2 ht2 hon2
          rcases (hroot t2).mp ((sphere_on_surface_iff s ray hunit t2).mp hon2) with h | h
          · rw [h] at ht2
            exact absurd ht2 hgt
          · exact le_of_eq h.symm
  · intro hno
    apply hnone
    · intro hgt
      exact hno ⟨_, hgt,
        (sphere_on_surface_iff s ray hunit _).mpr ((hroot _).mpr (Or.inl rfl))⟩
    · intro hgt
      exact hno ⟨_, hgt,
        (sphere_on_surface_iff s ray hunit _).mpr ((hroot _).mpr (Or.inr rfl))⟩

/-- C8: a ray whose discriminant `B² − 4C` is 0 (tangency), or more generally
below `almostZero`, gets the no-hit sentinel -1 from `Sphere::rayIntersect`. -/
theorem sphere_tangent_no_hit (sqrt : K → K) (s : Sphere K) (ray : Ray K)
    (h : s.delta ray = 0 ∨ s.delta ray < almostZero K) : s.rayIntersect sqrt ray = -1 := by
  apply sphere_rayIntersect_of_small
  rcases h with h | h
  · rw [h]; exact almostZero_pos
  · exact h

/-- C7 (amended): for a unit vector `u`, a radius `R > 0` with
`4R² ≥ almostZero` and a distance `D` with `D − R > almostZero`, when the square
root of `4R²` is exact, the sphere of radius `R` centred at the origin is hit at
`t = D − R` by the ray that starts at `D·u` with direction `−u`. -/
theorem sphere_inward_ray_hit (sqrt : K → K) (R D : K) (u : Vector K)
    (hu : u.dot u = 1) (hR : 0 < R) (hthr : almostZero K ≤ 4 * R * R)
    (hgap : almostZero K < D - R) (hsqrt : sqrt (4 * R * R) = 2 * R) :
    (Sphere.new ⟨0, 0, 0⟩ R).rayIntersect sqrt
        ⟨(Point.mk 0 0 0).addVec (u.scale D), u.scale (-1)⟩ = D - R := by
  have _ := hR
  have hB : (Sphere.new ⟨0, 0, 0⟩ R).coeffB
      ⟨(Point.mk 0 0 0).addVec (u.scale D), u.scale (-1)⟩ = 2 * D := by
    simp only [Sphere.coeffB, Sphere.new, Vector.dot, Point.sub, Point.addVec, Vector.scale] at hu ⊢
    linear_combination (2 * D) * hu
  have hdel : (Sphere.new ⟨0, 0, 0⟩ R).delta
      ⟨(Point.mk 0 0 0).addVec (u.scale D), u.scale (-1)⟩ = 4 * R * R := by
    unfold Sphere.delta
    rw [hB]
    simp only [Sphere.coeffC, Sphere.new, Vector.dot, Point.sub, Point.addVec, Vector.scale] at hu ⊢
    linear_combination (-4 * D * D) * hu
  have hlarge := (sphere_rayIntersect_of_large sqrt (Sphere.new ⟨0, 0, 0⟩ R)
    ⟨(Point.mk 0 0 0).addVec (u.scale D), u.scale (-1)⟩ (by rw [hdel]; exact hthr)).1
  rw [hB, hdel, hsqrt] at hlarge
  have hval : (2 * D - 2 * R) / 2 = D - R := by ring
  rw [hval] at hlarge
  exact hlarge hgap

/-! ### Triangle -/

/-- A vector `C` orthogonal to `n`, where `n` is a non-zero normal of the plane
spanned by the independent vectors `e0` and `e1`, is the combination of `e0` and
`e1` whose coefficients solve the normal equations. -/
theorem plane_decomposition (e0 e1 n C d : Vector K) (hn0 : n.dot e0 = 0) (hn1 : n.dot e1 = 0)
    (hC : C.dot n = 0) (hd : d.dot n ≠ 0)
    (hden : e0.dot e0 * e1.dot e1 - e0.dot e1 * e0.dot e1 ≠ 0) :
    C = (e0.scale ((C.dot e0 * e1.dot e1 - C.dot e1 * e0.dot e1)
            / (e0.dot e0 * e1.dot e1 - e0.dot e1 * e0.dot e1))).add
        (e1.scale ((C.dot e1 * e0.dot e0 - C.dot e0 * e0.dot e1)
            / (e0.dot e0 * e1.dot e1 - e0.dot e1 * e0.dot e1))) := by
  obtain ⟨ax, ay, az⟩ := e0
  obtain ⟨bx, by_, bz⟩ := e1
  obtain ⟨nx, ny, nz⟩ := n
  obtain ⟨cx, cy, cz⟩ := C
  obtain ⟨dx, dy, dz⟩ := d
  simp only [Vector.dot] at hn0 hn1 hC hd hden
  simp only [Vector.dot, Vector.scale, Vector.add]
  set wx := ay * bz - az * by_ with hwx
  set wy := az * bx - ax * bz with hwy
  set wz := ax * by_ - ay * bx with hwz
  set den := (ax * ax + ay * ay + az * az) * (bx * bx + by_ * by_ + bz * bz)
      - (ax * bx + ay * by_ + az * bz) * (ax * bx + ay * by_ + az * bz) with hdendef
  have hww : wx * wx + wy * wy + wz * wz = den := by
    rw [hwx, hwy, hwz, hdendef]; ring
  -- `n` is parallel to `w = e0 × e1`
  have hpx : den * nx = (nx * wx + ny * wy + nz * wz) * wx := by
    rw [← hww, hwx, hwy, hwz]
    linear_combination (-(ax * bx + ay * by_ + az * bz) * bx + (bx * bx + by_ * by_ + bz * bz) * ax) * hn0
      + (-(ax * bx + ay * by_ + az * bz) * ax + (ax * ax + ay * ay + az * az) * bx) * hn1
  have hpy : den * ny = (nx * wx + ny * wy + nz * wz) * wy := by
    rw [← hww, hwx, hwy, hwz]
    linear_combination (-(ax * bx + ay * by_ + az * bz) * by_ + (bx * bx + by_ * by_ + bz * bz) * ay) * hn0
      + (-(ax * bx + ay * by_ + az * bz) * ay + (ax * ax + ay * ay + az * az) * by_) * hn1
  have hpz : den * nz = (nx * wx + ny * wy + nz * wz) * wz := by
    rw [← hww, hwx, hwy, hwz]
    linear_combination (-(ax * bx + ay * by_ + az * bz) * bz + (bx * bx + by_ * by_ + bz * bz) * az) * hn0
      + (-(ax * bx + ay * by_ + az * bz) * az + (ax * ax + ay * ay + az * az) * bz) * hn1
  have hnw : nx * wx + ny * wy + nz * wz ≠ 0 := by
    intro h0
    rw [h0, zero_mul] at hpx hpy hpz
    have hx : nx = 0 := (mul_eq_zero.mp hpx).resolve_left hden
    have hy : ny = 0 := (mul_eq_zero.mp hpy).resolve_left hden
    have hz : nz = 0 := (mul_eq_zero.mp hpz).resolve_left hden
    apply hd
    rw [hx, hy, hz]; ring
  have hCw : cx * wx + cy * wy + cz * wz = 0 := by
    have h : (nx * wx + ny * wy + nz * wz) * (cx * wx + cy * wy + cz * wz) = 0 := by
      linear_combination den * hC - cx * hpx - cy * hpy - cz * hpz
    exact (mul_eq_zero.mp h).resolve_left hnw
  have hdx : den * cx = ((cx * ax + cy * ay + cz * az) * (bx * bx + by_ * by_ + bz * bz)
        - (cx * bx + cy * by_ + cz * bz) * (ax * bx + ay * by_ + az * bz)) * ax
      + ((cx * bx + cy * by_ + cz * bz) * (ax * ax + ay * ay + az * az)
        - (cx * ax + cy * ay + cz * az) * (ax * bx + ay * by_ + az * bz)) * bx := by
    rw [hdendef]
    linear_combination wx * hCw
  have hdy : den * cy = ((cx * ax + cy * ay + cz * az) * (bx * bx + by_ * by_ + bz * bz)
        - (cx * bx + cy * by_ + cz * bz) * (ax * bx + ay * by_ + az * bz)) * ay
      + ((cx * bx + cy * by_ + cz * bz) * (ax * ax + ay * ay + az * az)
        - (cx * ax + cy * ay + cz * az) * (ax * bx + ay * by_ + az * bz)) * by_ := by
    rw [hdendef]
    linear_combination wy * hCw
  have hdz : den * cz = ((cx * ax + cy * ay + cz * az) * (bx * bx + by_ * by_ + bz * bz)
        - (cx * bx + cy * by_ + cz * bz) * (ax * bx + ay * by_ + az * bz)) * az
      + ((cx * bx + cy * by_ + cz * bz) * (ax * ax + ay * ay + az * az)
        - (cx * ax + cy * ay + cz * az) * (ax * bx + ay * by_ + az * bz)) * bz := by
    rw [hdendef]
    linear_combination wz * hCw
  ext
  · show cx = _
    field_simp
    linear_combination hdx
  · show cy = _
    field_simp
    linear_combination hdy
  · show cz = _
    field_simp
    linear_combination hdz

/-- The outcome of `Triangle::rayIntersect`: a value other than -1 is returned
exactly when the base plane reports a parameter that is not below `almostZero`,
`denom` is not 0 and none of `alpha`, `beta`, `gamma` is below `almostZero`; the
value returned is then the plane's parameter. -/
theorem triangle_rayIntersect_cases (T : Triangle K) (ray : Ray K) :
    (T.rayIntersect ray ≠ -1 ↔
      ¬ T.toPlane.rayIntersect ray < almostZero K ∧ T.denom ≠ 0 ∧
        almostZero K ≤ T.alpha ray (T.toPlane.rayIntersect ray) ∧
        almostZero K ≤ T.beta ray (T.toPlane.rayIntersect ray) ∧
        almostZero K ≤ T.gamma ray (T.toPlane.rayIntersect ray)) ∧
    (T.rayIntersect ray ≠ -1 → T.rayIntersect ray = T.toPlane.rayIntersect ray) := by
  have hpos : (0 : K) < almostZero K := almostZero_pos
  by_cases h1 : T.toPlane.rayIntersect ray < almostZero K
  · have hval : T.rayIntersect ray = -1 := by
      unfold Triangle.rayIntersect
      simp only [if_pos h1]
    rw [hval]
    exact ⟨⟨fun h => absurd rfl h, fun h => absurd h1 h.1⟩, fun h => absurd rfl h⟩
  · by_cases h2 : T.denom = 0
    · have hval : T.rayIntersect ray = -1 := by
        unfold Triangle.rayIntersect
        simp only [if_neg h1, if_pos h2]
      rw [hval]
      exact ⟨⟨fun h => absurd rfl h, fun h => absurd h2 h.2.1⟩, fun h => absurd rfl h⟩
    · by_cases h3 : T.alpha ray (T.toPlane.rayIntersect ray) < almostZero K ∨
          T.beta ray (T.toPlane.rayIntersect ray) < almostZero K ∨
          T.gamma ray (T.toPlane.rayIntersect ray) < almostZero K
      · have hval : T.rayIntersect ray = -1 := by
          unfold Triangle.rayIntersect
          simp only [if_neg h1, if_neg h2, if_pos h3]
        rw [hval]
        refine ⟨⟨fun h => absurd rfl h, fun h => ?_⟩, fun h => absurd rfl h⟩
        rcases h3 with h3 | h3 | h3
        · exact absurd h3 (not_lt_of_le h.2.2.1)
        · exact absurd h3 (not_lt_of_le h.2.2.2.1)
        · exact absurd h3 (not_lt_of_le h.2.2.2.2)
      · have hval : T.rayIntersect ray = T.toPlane.rayIntersect ray := by
          unfold Triangle.rayIntersect
          simp only [if_neg h1, if_neg h2, if_neg h3]
        rw [hval]
        have hne : T.toPlane.rayIntersect ray ≠ -1 := by
          intro h
          apply h1
          rw [h]
          linarith
        refine ⟨⟨fun _ => ⟨h1, h2, ?_, ?_, ?_⟩, fun _ => hne⟩, fun _ => rfl⟩
        · exact le_of_not_lt (fun h => h3 (Or.inl h))
        · exact le_of_not_lt (fun h => h3 (Or.inr (Or.inl h)))
        · exact le_of_not_lt (fun h => h3 (Or.inr (Or.inr h)))

/-- For a triangle built by the constructor whose stored normal is perpendicular
to both edges and whose `denom` is not 0, the point where the base plane is hit
is `p0 + beta·edge0 + gamma·edge1` for the `beta` and `gamma` of
`Triangle::rayIntersect`. -/
theorem triangle_hit_decomposition (sqrt : K → K) (p0 p1 p2 : Point K) (normal : Vector K)
    (ray : Ray K)
    (hdeg : (Triangle.new sqrt p0 p1 p2 normal).denom ≠ 0)
    (hn0 : (Triangle.new sqrt p0 p1 p2 normal).toPlane.normalVec.dot (p1.sub p0) = 0)
    (hn1 : (Triangle.new sqrt p0 p1 p2 normal).toPlane.normalVec.dot (p2.sub p0) = 0)
    (hhit : (Triangle.new sqrt p0 p1 p2 normal).toPlane.rayIntersect ray ≠ -1) :
    (ray.getPoint ((Triangle.new sqrt p0 p1 p2 normal).toPlane.rayIntersect ray)).sub p0
      = ((p1.sub p0).scale ((Triangle.new sqrt p0 p1 p2 normal).beta ray
            ((Triangle.new sqrt p0 p1 p2 normal).toPlane.rayIntersect ray))).add
        ((p2.sub p0).scale ((Triangle.new sqrt p0 p1 p2 normal).gamma ray
            ((Triangle.new sqrt p0 p1 p2 normal).toPlane.rayIntersect ray))) := by
  have hC := plane_hit_on_plane (Triangle.new sqrt p0 p1 p2 normal).toPlane ray hhit
  have hd : ray.direction.dot (Triangle.new sqrt p0 p1 p2 normal).toPlane.normalVec ≠ 0 := by
    intro h0
    rcases plane_rayIntersect_cases (Triangle.new sqrt p0 p1 p2 normal).toPlane ray with
      ⟨_, h1⟩ | ⟨hpar, _, _⟩ | ⟨_, _, h1⟩
    · exact hhit h1
    · apply hpar
      rw [h0, abs_zero]
      exact almostZero_pos
    · exact hhit h1
  exact plane_decomposition (p1.sub p0) (p2.sub p0)
    (Triangle.new sqrt p0 p1 p2 normal).toPlane.normalVec _ ray.direction hn0 hn1 hC hd hdeg

/-- For a triangle built by the constructor with `denom ≠ 0`, a point of the form
`p0 + b·edge0 + g·edge1` gets `beta = b` and `gamma = g` from the formulas of
`Triangle::rayIntersect`. -/
theorem triangle_beta_gamma_of_combination (sqrt : K → K) (p0 p1 p2 : Point K)
    (normal : Vector K) (ray : Ray K) (t b g : K)
    (hdeg : (Triangle.new sqrt p0 p1 p2 normal).denom ≠ 0)
    (hC : (ray.getPoint t).sub p0 = ((p1.sub p0).scale b).add ((p2.sub p0).scale g)) :
    (Triangle.new sqrt p0 p1 p2 normal).beta ray t = b ∧
      (Triangle.new sqrt p0 p1 p2 normal).gamma ray t = g := by
  have hden : (p1.sub p0).dot (p1.sub p0) * (p2.sub p0).dot (p2.sub p0)
      - (p1.sub p0).dot (p2.sub p0) * (p1.sub p0).dot (p2.sub p0) ≠ 0 := hdeg
  have hb : (Triangle.new sqrt p0 p1 p2 normal).beta ray t
      = (((ray.getPoint t).sub p0).dot (p1.sub p0) * (p2.sub p0).dot (p2.sub p0)
          - ((ray.getPoint t).sub p0).dot (p2.sub p0) * (p1.sub p0).dot (p2.sub p0))
        / ((p1.sub p0).dot (p1.sub p0) * (p2.sub p0).dot (p2.sub p0)
          - (p1.sub p0).dot (p2.sub p0) * (p1.sub p0).dot (p2.sub p0)) := rfl
  have hg : (Triangle.new sqrt p0 p1 p2 normal).gamma ray t
      = (((ray.getPoint t).sub p0).dot (p2.sub p0) * (p1.sub p0).dot (p1.sub p0)
          - ((ray.getPoint t).sub p0).dot (p1.sub p0) * (p1.sub p0).dot (p2.sub p0))
        / ((p1.sub p0).dot (p1.sub p0) * (p2.sub p0).dot (p2.sub p0)
          - (p1.sub p0).dot (p2.sub p0) * (p1.sub p0).dot (p2.sub p0)) := rfl
  rw [hb, hg, hC]
  generalize p1.sub p0 = e0 at *
  generalize p2.sub p0 = e1 at *
  simp only [Vector.dot, Vector.scale, Vector.add] at hden ⊢
  constructor
  · rw [div_eq_iff hden]; ring
  · rw [div_eq_iff hden]; ring

/-- Characterisation of `Triangle::rayIntersect` on a triangle built by the
constructor, non-degenerate and with a stored normal perpendicular to both edges. -/
theorem triangle_rayIntersect_iff_barycentric (sqrt : K → K) (p0 p1 p2 : Point K)
    (normal : Vector K) (ray : Ray K)
    (hdeg : (Triangle.new sqrt p0 p1 p2 normal).denom ≠ 0)
    (hn0 : (Triangle.new sqrt p0 p1 p2 normal).toPlane.normalVec.dot (p1.sub p0) = 0)
    (hn1 : (Triangle.new sqrt p0 p1 p2 normal).toPlane.normalVec.dot (p2.sub p0) = 0) :
    ((Triangle.new sqrt p0 p1 p2 normal).rayIntersect ray ≠ -1 ↔
      ∃ a b g : K,
        almostZero K < (Triangle.new sqrt p0 p1 p2 normal).toPlane.rayIntersect ray ∧
        a + b + g = 1 ∧
        ray.getPoint ((Triangle.new sqrt p0 p1 p2 normal).toPlane.rayIntersect ray)
          = ⟨a * p0.x + b * p1.x + g * p2.x, a * p0.y + b * p1.y + g * p2.y,
              a * p0.z + b * p1.z + g * p2.z⟩ ∧
        almostZero K ≤ a ∧ almostZero K ≤ b ∧ almostZero K ≤ g) ∧
    ((Triangle.new sqrt p0 p1 p2 normal).rayIntersect ray ≠ -1 →
      (Triangle.new sqrt p0 p1 p2 normal).rayIntersect ray
        = (Triangle.new sqrt p0 p1 p2 normal).toPlane.rayIntersect ray ∧
      almostZero K < (Triangle.new sqrt p0 p1 p2 normal).rayIntersect ray ∧
      (Triangle.new sqrt p0 p1 p2 normal).alpha ray
          ((Triangle.new sqrt p0 p1 p2 normal).rayIntersect ray)
        + (Triangle.new sqrt p0 p1 p2 normal).beta ray
          ((Triangle.new sqrt p0 p1 p2 normal).rayIntersect ray)
        + (Triangle.new sqrt p0 p1 p2 normal).gamma ray
          ((Triangle.new sqrt p0 p1 p2 normal).rayIntersect ray) = 1 ∧
      ray.getPoint ((Triangle.new sqrt p0 p1 p2 normal).rayIntersect ray)
        = ⟨(Triangle.new sqrt p0 p1 p2 normal).alpha ray
              ((Triangle.new sqrt p0 p1 p2 normal).rayIntersect ray) * p0.x
            + (Triangle.new sqrt p0 p1 p2 normal).beta ray
              ((Triangle.new sqrt p0 p1 p2 normal).rayIntersect ray) * p1.x
            + (Triangle.new sqrt p0 p1 p2 normal).gamma ray
              ((Triangle.new sqrt p0 p1 p2 normal).rayIntersect ray) * p2.x,
           (Triangle.new sqrt p0 p1 p2 normal).alpha ray
              ((Triangle.new sqrt p0 p1 p2 normal).rayIntersect ray) * p0.y
            + (Triangle.new sqrt p0 p1 p2 normal).beta ray
              ((Triangle.new sqrt p0 p1 p2 normal).rayIntersect ray) * p1.y
            + (Triangle.new sqrt p0 p1 p2 normal).gamma ray
              ((Triangle.new sqrt p0 p1 p2 normal).rayIntersect ray) * p2.y,
           (Triangle.new sqrt p0 p1 p2 normal).alpha ray
              ((Triangle.new sqrt p0 p1 p2 normal).rayIntersect ray) * p0.z
            + (Triangle.new sqrt p0 p1 p2 normal).beta ray
              ((Triangle.new sqrt p0 p1 p2 normal).rayIntersect ray) * p1.z
            + (Triangle.new sqrt p0 p1 p2 normal).gamma ray
              ((Triangle.new sqrt p0 p1 p2 normal).rayIntersect ray) * p2.z⟩ ∧
      almostZero K ≤ (Triangle.new sqrt p0 p1 p2 normal).alpha ray
          ((Triangle.new sqrt p0 p1 p2 normal).rayIntersect ray) ∧
      almostZero K ≤ (Triangle.new sqrt p0 p1 p2 normal).beta ray
          ((Triangle.new sqrt p0 p1 p2 normal).rayIntersect ray) ∧
      almostZero K ≤ (Triangle.new sqrt p0 p1 p2 normal).gamma ray
          ((Triangle.new sqrt p0 p1 p2 normal).rayIntersect ray)) := by
  have hpos : (0 : K) < almostZero K := almostZero_pos
  obtain ⟨hiff, hval⟩ := triangle_rayIntersect_cases (Triangle.new sqrt p0 p1 p2 normal) ray
  -- what a hit gives
  have hfwd : (Triangle.new sqrt p0 p1 p2 normal).rayIntersect ray ≠ -1 →
      almostZero K < (Triangle.new sqrt p0 p1 p2 normal).toPlane.rayIntersect ray ∧
      ray.getPoint ((Triangle.new sqrt p0 p1 p2 normal).toPlane.rayIntersect ray)
        = ⟨(Triangle.new sqrt p0 p1 p2 normal).alpha ray
              ((Triangle.new sqrt p0 p1 p2 normal).toPlane.rayIntersect ray) * p0.x
            + (Triangle.new sqrt p0 p1 p2 normal).beta ray
              ((Triangle.new sqrt p0 p1 p2 normal).toPlane.rayIntersect ray) * p1.x
            + (Triangle.new sqrt p0 p1 p2 normal).gamma ray
              ((Triangle.new sqrt p0 p1 p2 normal).toPlane.rayIntersect ray) * p2.x,
           (Triangle.new sqrt p0 p1 p2 normal).alpha ray
              ((Triangle.new sqrt p0 p1 p2 normal).toPlane.rayIntersect ray) * p0.y
            + (Triangle.new sqrt p0 p1 p2 normal).beta ray
              ((Triangle.new sqrt p0 p1 p2 normal).toPlane.rayIntersect ray) * p1.y
            + (Triangle.new sqrt p0 p1 p2 normal).gamma ray
              ((Triangle.new sqrt p0 p1 p2 normal).toPlane.rayIntersect ray) * p2.y,
           (Triangle.new sqrt p0 p1 p2 normal).alpha ray
              ((Triangle.new sqrt p0 p1 p2 normal).toPlane.rayIntersect ray) * p0.z
            + (Triangle.new sqrt p0 p1 p2 normal).beta ray
              ((Triangle.new sqrt p0 p1 p2 normal).toPlane.rayIntersect ray) * p1.z
            + (Triangle.new sqrt p0 p1 p2 normal).gamma ray
              ((Triangle.new sqrt p0 p1 p2 normal).toPlane.rayIntersect ray) * p2.z⟩ := by
    intro hne
    obtain ⟨hge, _, _, _, _⟩ := hiff.mp hne
    have hplane : (Triangle.new sqrt p0 p1 p2 normal).toPlane.rayIntersect ray ≠ -1 := by
      intro h
      apply hge
      rw [h]
      linarith
    have hgt : almostZero K < (Triangle.new sqrt p0 p1 p2 normal).toPlane.rayIntersect ray := by
      rcases plane_rayIntersect_cases (Triangle.new sqrt p0 p1 p2 normal).toPlane ray with
        ⟨_, h1⟩ | ⟨_, ht, h1⟩ | ⟨_, _, h1⟩
      · exact absurd h1 hplane
      · rw [h1]; exact ht
      · exact absurd h1 hplane
    refine ⟨hgt, ?_⟩
    have hdec := triangle_hit_decomposition sqrt p0 p1 p2 normal ray hdeg hn0 hn1 hplane
    have hx := congrArg Vector.x hdec
    have hy := congrArg Vector.y hdec
    have hz := congrArg Vector.z hdec
    simp only [Point.sub, Vector.add, Vector.scale] at hx hy hz
    ext
    · simp only [Triangle.alpha]
      linear_combination hx
    · simp only [Triangle.alpha]
      linear_combination hy
    · simp only [Triangle.alpha]
      linear_combination hz
  constructor
  · constructor
    · intro hne
      obtain ⟨_, _, ha, hb, hg⟩ := hiff.mp hne
      obtain ⟨hgt, hP⟩ := hfwd hne
      exact ⟨_, _, _, hgt, by simp only [Triangle.alpha]; ring, hP, ha, hb, hg⟩
    · rintro ⟨a, b, g, hgt, hsum, hP, ha, hb, hg⟩
      have hC : (ray.getPoint ((Triangle.new sqrt p0 p1 p2 normal).toPlane.rayIntersect ray)).sub p0
          = ((p1.sub p0).scale b).add ((p2.sub p0).scale g) := by
        rw [hP]
        simp only [Point.sub, Vector.add, Vector.scale]
        have ha1 : a = 1 - b - g := by linear_combination hsum
        rw [ha1]
        ext
        · show _ = _
          ring
        · show _ = _
          ring
        · show _ = _
          ring
      obtain ⟨hbeta, hgamma⟩ :=
        triangle_beta_gamma_of_combination sqrt p0 p1 p2 normal ray _ b g hdeg hC
      apply hiff.mpr
      refine ⟨not_lt_of_le (le_of_lt hgt), hdeg, ?_, ?_, ?_⟩
      · simp only [Triangle.alpha]
        rw [hbeta, hgamma]
        have ha1 : 1 - b - g = a := by linear_combination -hsum
        rw [ha1]; exact ha
      · rw [hbeta]; exact hb
      · rw [hgamma]; exact hg
  · intro hne
    obtain ⟨_, _, ha, hb, hg⟩ := hiff.mp hne
    obtain ⟨hgt, hP⟩ := hfwd hne
    rw [hval hne]
    exact ⟨rfl, hgt, by simp only [Triangle.alpha]; ring, hP, ha, hb, hg⟩

/-! ### Shading -/

/-- When the shadow query returns an occluder at parameter `t`, the light
contributes exactly when `t` is smaller than `lightDirection·(light − point)`. -/
theorem lit_iff_of_occluder (sqrt : K → K) (objects : List (Material K)) (point : Point K)
    (light : Light K) (i : Nat) (t : K)
    (h : Material.nearest sqrt objects (Ray.towards sqrt point light.position)
      = (some i, (t : WithTop K))) :
    Material.lit sqrt objects point light ↔
      t < ((light.position.sub point).normalize sqrt).dot (light.position.sub point) := by
  unfold Material.lit
  simp only [h, gt_iff_lt, WithTop.coe_lt_coe]
  constructor
  · rintro (h1 | h1)
    · exact absurd h1 (by simp)
    · exact h1
  · intro h1
    exact Or.inr h1

/-! ### Evaluation on the concrete inputs -/

/-- The rational square root is exact at 1. -/
theorem rat_sqrt_one : Rat.sqrt 1 = 1 := by
  simp

/-- The rational square root is exact at 4. -/
theorem rat_sqrt_four : Rat.sqrt 4 = 2 := by
  rw [show (4 : ℚ) = 2 * 2 by norm_num, Rat.sqrt_eq]
  norm_num

/-- The rational square root is exact at 16. -/
theorem rat_sqrt_sixteen : Rat.sqrt 16 = 4 := by
  rw [show (16 : ℚ) = 4 * 4 by norm_num, Rat.sqrt_eq]
  norm_num

/-- The constructor `Plane::Plane` on the unit normal `(0, 0, 1)`. -/
theorem unit_z_plane (z : ℚ) :
    Plane.new Rat.sqrt ⟨0, 0, 1⟩ ⟨0, 0, z⟩ = ⟨⟨0, 0, 1⟩, ⟨0, 0, z⟩, AABB.empty⟩ := by
  simp [Plane.new, Vector.normalize, Vector.dot, Vector.divide, rat_sqrt_one]

/-- The unit direction from the origin to `shadowLight`. -/
theorem shadow_direction :
    (shadowLight.position.sub ⟨0, 0, 0⟩).normalize Rat.sqrt = ⟨0, 0, 1⟩ := by
  simp [shadowLight, Vector.normalize, Vector.dot, Vector.divide, Point.sub]
  norm_num [rat_sqrt_sixteen]

/-- The vertical ray from the origin meets the occluder at height `z` at parameter `z`. -/
theorem shadowOccluder_hit (z : ℚ) (hz : almostZero ℚ < z) :
    (shadowOccluder z).getShape.rayIntersect Rat.sqrt ⟨⟨0, 0, 0⟩, ⟨0, 0, 1⟩⟩ = z := by
  have hp : ¬ (1 : ℚ) < almostZero ℚ := by
    unfold almostZero; norm_num
  simp [shadowOccluder, Material.new, Material.getShape, Shape.rayIntersect, unit_z_plane,
    Plane.rayIntersect, Vector.dot, Point.sub, hp, hz]

/-- The vertical ray from the origin, which lies on the floor, does not hit the floor. -/
theorem shadowFloor_miss :
    shadowFloor.getShape.rayIntersect Rat.sqrt ⟨⟨0, 0, 0⟩, ⟨0, 0, 1⟩⟩ = -1 := by
  have hp : ¬ (1 : ℚ) < almostZero ℚ := by
    unfold almostZero; norm_num
  have hz : ¬ almostZero ℚ < 0 := by
    unfold almostZero; norm_num
  simp [shadowFloor, Material.new, Material.getShape, Shape.rayIntersect, unit_z_plane,
    Plane.rayIntersect, Vector.dot, Point.sub, hp, hz]

/-- The shadow query of the shadow scene returns the occluder, at parameter `z`. -/
theorem shadow_nearest (z : ℚ) (hz : almostZero ℚ < z) :
    Material.nearest Rat.sqrt [shadowFloor, shadowOccluder z]
      (Ray.towards Rat.sqrt ⟨0, 0, 0⟩ shadowLight.position) = (some 1, ((z : ℚ) : WithTop ℚ)) := by
  have hray : Ray.towards Rat.sqrt ⟨0, 0, 0⟩ shadowLight.position = ⟨⟨0, 0, 0⟩, ⟨0, 0, 1⟩⟩ := by
    unfold Ray.towards
    rw [shadow_direction]
  have hzpos : (0 : ℚ) < z := lt_trans almostZero_pos hz
  rw [hray]
  have h := nearest_second_only Rat.sqrt shadowFloor (shadowOccluder z) ⟨⟨0, 0, 0⟩, ⟨0, 0, 1⟩⟩
    (by rw [shadowFloor_miss]; norm_num) (by rw [shadowOccluder_hit z hz]; exact hzpos)
  rw [shadowOccluder_hit z hz] at h
  exact h

/-- In the shadow scene the light contributes exactly when the occluder is below the light. -/
theorem shadow_lit_iff (z : ℚ) (hz : almostZero ℚ < z) :
    Material.lit Rat.sqrt [shadowFloor, shadowOccluder z] ⟨0, 0, 0⟩ shadowLight ↔ z < 4 := by
  rw [lit_iff_of_occluder Rat.sqrt _ _ _ 1 z (shadow_nearest z hz), shadow_direction]
  simp [shadowLight, Vector.dot, Point.sub]

/-- Colour of the floor point with the occluder at height 2. -/
theorem shade_between :
    Material.shade Rat.sqrt [shadowFloor, shadowOccluder 2] [shadowLight] ⟨0, 0, 0⟩ shadowFloor
      ⟨0, 0, 0⟩ ⟨0, 0, 1⟩ ⟨0, 0, 1⟩ = ⟨2, 2, 2⟩ := by
  have hlit : Material.lit Rat.sqrt [shadowFloor, shadowOccluder 2] ⟨0, 0, 0⟩ shadowLight :=
    (shadow_lit_iff 2 (by unfold almostZero; norm_num)).mpr (by norm_num)
  simp only [Material.shade, List.foldl, Material.shadeStep, if_pos hlit, shadow_direction]
  simp [shadowFloor, shadowLight, Material.new, Vector.dot, Vector.scale, Vector.sub, Vector.add,
    Vector.elementWiseMultiplication, Vector.divide]

/-- Colour of the floor point with the occluder at height 8. -/
theorem shade_beyond :
    Material.shade Rat.sqrt [shadowFloor, shadowOccluder 8] [shadowLight] ⟨0, 0, 0⟩ shadowFloor
      ⟨0, 0, 0⟩ ⟨0, 0, 1⟩ ⟨0, 0, 1⟩ = ⟨0, 0, 0⟩ := by
  have hlit : ¬ Material.lit Rat.sqrt [shadowFloor, shadowOccluder 8] ⟨0, 0, 0⟩ shadowLight := by
    rw [shadow_lit_iff 8 (by unfold almostZero; norm_num)]
    norm_num
  simp only [Material.shade, List.foldl, Material.shadeStep, if_neg hlit]
  simp [shadowFloor, Material.new, Vector.scale, Vector.elementWiseMultiplication, Vector.divide]

/-- The matrix `liftMatrix` applied to a point. -/
theorem lift_point (p : Point ℚ) : liftMatrix.mulPoint p = ⟨p.x, p.y, p.z + 5⟩ := by
  simp [liftMatrix, Matrix.mulPoint, Matrix.translation]

/-- The matrix `liftMatrix` applied to a vector. -/
theorem lift_vector (v : Vector ℚ) : liftMatrix.mulVector v = v := by
  simp [liftMatrix, Matrix.mulVector, Matrix.translation]

/-- The probe ray on `unitTriangle` after `applyTransform(liftMatrix)`. -/
theorem moved_eval : (unitTriangle.applyTransform Rat.sqrt liftMatrix).rayIntersect probeRay = 6 := by
  have hp : ¬ (1 : ℚ) < almostZero ℚ := by
    unfold almostZero; norm_num
  have h6 : almostZero ℚ < 6 := by
    unfold almostZero; norm_num
  have hplane : (unitTriangle.applyTransform Rat.sqrt liftMatrix).toPlane.rayIntersect probeRay = 6 := by
    simp [unitTriangle, Triangle.applyTransform, Triangle.new, unit_z_plane, probeRay,
      Plane.rayIntersect, Vector.dot, Point.sub, hp, h6]
  unfold Triangle.rayIntersect
  rw [hplane]
  simp [unitTriangle, Triangle.applyTransform, Triangle.new, probeRay, Triangle.alpha,
    Triangle.beta, Triangle.gamma, lift_point, Vector.dot, Point.sub, Ray.getPoint, Point.addVec,
    Vector.scale, not_lt_of_lt h6]
  unfold almostZero
  norm_num

/-- The probe ray on the triangle constructed from the transformed vertices. -/
theorem rebuilt_eval : rebuiltTriangle.rayIntersect probeRay = 1 := by
  have hp : ¬ (1 : ℚ) < almostZero ℚ := by
    unfold almostZero; norm_num
  have h1 : almostZero ℚ < 1 := by
    unfold almostZero; norm_num
  have hplane : rebuiltTriangle.toPlane.rayIntersect probeRay = 1 := by
    simp [rebuiltTriangle, Triangle.new, lift_point, lift_vector, unit_z_plane, probeRay,
      Plane.rayIntersect, Vector.dot, Point.sub, hp]
    norm_num [h1]
  unfold Triangle.rayIntersect
  rw [hplane]
  simp [rebuiltTriangle, Triangle.new, probeRay, Triangle.alpha,
    Triangle.beta, Triangle.gamma, lift_point, Vector.dot, Point.sub, Ray.getPoint, Point.addVec,
    Vector.scale, not_lt_of_lt h1]
  unfold almostZero
  norm_num

/-- The `Plane` base of `unitTriangle`. -/
theorem unitTriangle_plane : unitTriangle.toPlane = ⟨⟨0, 0, 1⟩, ⟨0, 0, 0⟩, AABB.empty⟩ := by
  simp [unitTriangle, Triangle.new, unit_z_plane]

/-- The ray toward `(0.25, 0.25, 0)` hits `unitTriangle` at `t = 1`. -/
theorem unitTriangle_hit :
    unitTriangle.rayIntersect (Ray.towards Rat.sqrt ⟨1 / 4, 1 / 4, 1⟩ ⟨1 / 4, 1 / 4, 0⟩) = 1 := by
  have hray : Ray.towards Rat.sqrt ⟨1 / 4, 1 / 4, 1⟩ ⟨1 / 4, 1 / 4, 0⟩
      = ⟨⟨1 / 4, 1 / 4, 1⟩, ⟨0, 0, -1⟩⟩ := by
    simp [Ray.towards, Vector.normalize, Vector.dot, Vector.divide, Point.sub]
  have hp : ¬ (1 : ℚ) < almostZero ℚ := by
    unfold almostZero; norm_num
  have h1 : almostZero ℚ < 1 := by
    unfold almostZero; norm_num
  rw [hray]
  have hplane : unitTriangle.toPlane.rayIntersect ⟨⟨1 / 4, 1 / 4, 1⟩, ⟨0, 0, -1⟩⟩ = 1 := by
    rw [unitTriangle_plane]
    simp [Plane.rayIntersect, Vector.dot, Point.sub, hp, h1]
  unfold Triangle.rayIntersect
  rw [hplane]
  simp [unitTriangle, Triangle.new, Triangle.alpha, Triangle.beta, Triangle.gamma, Vector.dot,
    Point.sub, Ray.getPoint, Point.addVec, Vector.scale, not_lt_of_lt h1]
  unfold almostZero
  norm_num

/-- A ray from `(0.25, 0.25, 1)` along `(1.75, 1.75, -1)` divided by any length
misses `unitTriangle`. -/
theorem unitTriangle_miss_aux (s : ℚ) :
    unitTriangle.rayIntersect ⟨⟨1 / 4, 1 / 4, 1⟩, ⟨(7 / 4) / s, (7 / 4) / s, (-1) / s⟩⟩ = -1 := by
  by_contra hne
  obtain ⟨hiff, _⟩ := triangle_rayIntersect_cases unitTriangle
    ⟨⟨1 / 4, 1 / 4, 1⟩, ⟨(7 / 4) / s, (7 / 4) / s, (-1) / s⟩⟩
  obtain ⟨hge, _, ha, _, _⟩ := hiff.mp hne
  have hpos : (0 : ℚ) < almostZero ℚ := almostZero_pos
  rcases plane_rayIntersect_cases unitTriangle.toPlane
    ⟨⟨1 / 4, 1 / 4, 1⟩, ⟨(7 / 4) / s, (7 / 4) / s, (-1) / s⟩⟩ with
    ⟨_, h1⟩ | ⟨hpar, _, h1⟩ | ⟨_, _, h1⟩
  · rw [h1] at hge
    apply hge
    linarith
  · have hs : s ≠ 0 := by
      intro h0
      apply hpar
      rw [unitTriangle_plane, h0]
      simp [Vector.dot]
      exact hpos
    have ht : unitTriangle.toPlane.rayIntersect
        ⟨⟨1 / 4, 1 / 4, 1⟩, ⟨(7 / 4) / s, (7 / 4) / s, (-1) / s⟩⟩ = s := by
      rw [h1, unitTriangle_plane]
      simp [Vector.dot, Point.sub]
    rw [ht] at ha
    have hal : unitTriangle.alpha ⟨⟨1 / 4, 1 / 4, 1⟩, ⟨(7 / 4) / s, (7 / 4) / s, (-1) / s⟩⟩ s
        = -3 := by
      simp [unitTriangle, Triangle.new, Triangle.alpha, Triangle.beta, Triangle.gamma, Vector.dot,
        Point.sub, Ray.getPoint, Point.addVec, Vector.scale]
      field_simp
      ring
    rw [hal] at ha
    linarith
  · rw [h1] at hge
    apply hge
    linarith

/-- The ray toward `(2, 2, 0)` misses `unitTriangle` whatever length its direction
is divided by. -/
theorem unitTriangle_miss (s : ℚ) :
    unitTriangle.rayIntersect
      ⟨⟨1 / 4, 1 / 4, 1⟩, ((Point.mk 2 2 0).sub ⟨1 / 4, 1 / 4, 1⟩).divide s⟩ = -1 := by
  have hd : ((Point.mk (2 : ℚ) 2 0).sub ⟨1 / 4, 1 / 4, 1⟩).divide s
      = ⟨(7 / 4) / s, (7 / 4) / s, (-1) / s⟩ := by
    simp only [Point.sub, Vector.divide]
    norm_num
  rw [hd]
  exact unitTriangle_miss_aux s

/-- The discriminant of `axisRay` on `unitSphere`. -/
theorem axisRay_delta : unitSphere.delta axisRay = 4 := by
  simp [unitSphere, axisRay, Sphere.new, Sphere.delta, Sphere.coeffB, Sphere.coeffC, Vector.dot,
    Point.sub]
  norm_num

/-- The discriminant of `tangentRay` on `unitSphere`. -/
theorem tangentRay_delta : unitSphere.delta tangentRay = 0 := by
  simp [unitSphere, tangentRay, Sphere.new, Sphere.delta, Sphere.coeffB, Sphere.coeffC,
    Vector.dot, Point.sub]
  norm_num

/-! ### Claims on the concrete inputs -/

/-- C1: on the floor point below a light at height 4, an occluding plane at
height 2 (strictly between the point and the light) leaves the light's diffuse
and specular terms in the colour returned by `Material::shade`, and an occluding
plane at height 8 (beyond the light) removes them. -/
theorem shade_shadow_test_inverted :
    Material.nearest Rat.sqrt [shadowFloor, shadowOccluder 2]
        (Ray.towards Rat.sqrt ⟨0, 0, 0⟩ shadowLight.position) = (some 1, ((2 : ℚ) : WithTop ℚ)) ∧
    Material.shade Rat.sqrt [shadowFloor, shadowOccluder 2] [shadowLight] ⟨0, 0, 0⟩ shadowFloor
        ⟨0, 0, 0⟩ ⟨0, 0, 1⟩ ⟨0, 0, 1⟩ = ⟨2, 2, 2⟩ ∧
    Material.nearest Rat.sqrt [shadowFloor, shadowOccluder 8]
        (Ray.towards Rat.sqrt ⟨0, 0, 0⟩ shadowLight.position) = (some 1, ((8 : ℚ) : WithTop ℚ)) ∧
    Material.shade Rat.sqrt [shadowFloor, shadowOccluder 8] [shadowLight] ⟨0, 0, 0⟩ shadowFloor
        ⟨0, 0, 0⟩ ⟨0, 0, 1⟩ ⟨0, 0, 1⟩ = ⟨0, 0, 0⟩ :=
  ⟨shadow_nearest 2 (by unfold almostZero; norm_num), shade_between,
    shadow_nearest 8 (by unfold almostZero; norm_num), shade_beyond⟩

/-- C2 at the registry of the shadow scene and the vertical ray from the origin. -/
theorem nearest_returns_minimum_positive_witness :
    (∃ m ∈ [shadowFloor, shadowOccluder 2],
        0 < m.getShape.rayIntersect Rat.sqrt ⟨⟨0, 0, 0⟩, ⟨0, 0, 1⟩⟩) ∧
      ∃ (i : Nat) (m : Material ℚ) (t : ℚ),
        Material.nearest Rat.sqrt [shadowFloor, shadowOccluder 2] ⟨⟨0, 0, 0⟩, ⟨0, 0, 1⟩⟩
          = (some i, (t : WithTop ℚ)) ∧
        [shadowFloor, shadowOccluder 2][i]? = some m ∧
        m.getShape.rayIntersect Rat.sqrt ⟨⟨0, 0, 0⟩, ⟨0, 0, 1⟩⟩ = t ∧
        0 < t ∧
        ∀ m2 ∈ [shadowFloor, shadowOccluder 2],
          0 < m2.getShape.rayIntersect Rat.sqrt ⟨⟨0, 0, 0⟩, ⟨0, 0, 1⟩⟩ →
          t ≤ m2.getShape.rayIntersect Rat.sqrt ⟨⟨0, 0, 0⟩, ⟨0, 0, 1⟩⟩ :=
  have h : ∃ m ∈ [shadowFloor, shadowOccluder 2],
      0 < m.getShape.rayIntersect Rat.sqrt ⟨⟨0, 0, 0⟩, ⟨0, 0, 1⟩⟩ :=
    ⟨shadowOccluder 2, by simp, by
      rw [shadowOccluder_hit 2 (by unfold almostZero; norm_num)]
      norm_num⟩
  ⟨h, nearest_returns_minimum_positive Rat.sqrt _ _ h⟩

/-- C3 at the registry that holds only the floor and the vertical ray from the origin. -/
theorem nearest_no_hit_witness :
    (∀ m ∈ [shadowFloor], ¬ 0 < m.getShape.rayIntersect Rat.sqrt ⟨⟨0, 0, 0⟩, ⟨0, 0, 1⟩⟩) ∧
      Material.nearest Rat.sqrt [shadowFloor] ⟨⟨0, 0, 0⟩, ⟨0, 0, 1⟩⟩ = (none, ⊤) :=
  have h : ∀ m ∈ [shadowFloor],
      ¬ 0 < m.getShape.rayIntersect Rat.sqrt ⟨⟨0, 0, 0⟩, ⟨0, 0, 1⟩⟩ := by
    intro m hm
    rw [List.mem_singleton.mp hm, shadowFloor_miss]
    norm_num
  ⟨h, nearest_no_hit Rat.sqrt _ _ h⟩

/-- C4: after `applyTransform` with the translation by `(0, 0, 5)` the unit
triangle still answers with its old plane and cache (parameter 6 on the probe
ray), whereas the triangle constructed from the transformed vertices and normal
is hit at parameter 1. -/
theorem triangle_applyTransform_stale_cache :
    (unitTriangle.applyTransform Rat.sqrt liftMatrix).rayIntersect probeRay = 6 ∧
    rebuiltTriangle.rayIntersect probeRay = 1 ∧
    (unitTriangle.applyTransform Rat.sqrt liftMatrix).toPlane = unitTriangle.toPlane ∧
    (unitTriangle.applyTransform Rat.sqrt liftMatrix).p0 = ⟨0, 0, 5⟩ :=
  ⟨moved_eval, rebuilt_eval, rfl, by
    simp [Triangle.applyTransform, unitTriangle, Triangle.new, lift_point]⟩

/-- C5: for a triangle built by the constructor that is non-degenerate
(`denom ≠ 0`) and whose stored normal is perpendicular to both edges,
`Triangle::rayIntersect` returns a hit (not -1) exactly when the containing plane
is hit at a parameter above `almostZero` and the hit point has barycentric
coordinates that are all at least `almostZero`; on a hit the value returned is the
plane parameter, `alpha + beta + gamma = 1` and the hit point is
`alpha·p0 + beta·p1 + gamma·p2`.  On the triangle `(0,0,0)`, `(1,0,0)`, `(0,1,0)`
with normal `(0,0,1)`, the ray from `(0.25,0.25,1)` toward `(0.25,0.25,0)` hits at
`t = 1` and the ray from the same origin toward `(2,2,0)` returns -1. -/
theorem triangle_rayIntersect_barycentric :
    (∀ (K : Type) [LinearOrderedField K] (sqrt : K → K) (p0 p1 p2 : Point K)
        (normal : Vector K) (ray : Ray K) (T : Triangle K),
      T = Triangle.new sqrt p0 p1 p2 normal →
      T.denom ≠ 0 →
      T.toPlane.normalVec.dot (p1.sub p0) = 0 →
      T.toPlane.normalVec.dot (p2.sub p0) = 0 →
      (T.rayIntersect ray ≠ -1 ↔
        ∃ a b g : K,
          almostZero K < T.toPlane.rayIntersect ray ∧
          a + b + g = 1 ∧
          ray.getPoint (T.toPlane.rayIntersect ray)
            = ⟨a * p0.x + b * p1.x + g * p2.x, a * p0.y + b * p1.y + g * p2.y,
                a * p0.z + b * p1.z + g * p2.z⟩ ∧
          almostZero K ≤ a ∧ almostZero K ≤ b ∧ almostZero K ≤ g) ∧
      (T.rayIntersect ray ≠ -1 →
        T.rayIntersect ray = T.toPlane.rayIntersect ray ∧
        almostZero K < T.rayIntersect ray ∧
        T.alpha ray (T.rayIntersect ray) + T.beta ray (T.rayIntersect ray)
          + T.gamma ray (T.rayIntersect ray) = 1 ∧
        ray.getPoint (T.rayIntersect ray)
          = ⟨T.alpha ray (T.rayIntersect ray) * p0.x + T.beta ray (T.rayIntersect ray) * p1.x
                + T.gamma ray (T.rayIntersect ray) * p2.x,
              T.alpha ray (T.rayIntersect ray) * p0.y + T.beta ray (T.rayIntersect ray) * p1.y
                + T.gamma ray (T.rayIntersect ray) * p2.y,
              T.alpha ray (T.rayIntersect ray) * p0.z + T.beta ray (T.rayIntersect ray) * p1.z
                + T.gamma ray (T.rayIntersect ray) * p2.z⟩ ∧
        almostZero K ≤ T.alpha ray (T.rayIntersect ray) ∧
        almostZero K ≤ T.beta ray (T.rayIntersect ray) ∧
        almostZero K ≤ T.gamma ray (T.rayIntersect ray))) ∧
    unitTriangle.rayIntersect hitRay = 1 ∧
    unitTriangle.rayIntersect missRay = -1 := by
  refine ⟨?_, unitTriangle_hit, ?_⟩
  · intro K _ sqrt p0 p1 p2 normal ray T hT hdeg hn0 hn1
    subst hT
    exact triangle_rayIntersect_iff_barycentric sqrt p0 p1 p2 normal ray hdeg hn0 hn1
  · exact unitTriangle_miss (Rat.sqrt (((Point.mk 2 2 0).sub ⟨1 / 4, 1 / 4, 1⟩).dot
      ((Point.mk 2 2 0).sub ⟨1 / 4, 1 / 4, 1⟩)))

/-- C5 at the unit triangle and the ray toward `(0.25, 0.25, 0)`. -/
theorem triangle_rayIntersect_barycentric_witness :
    unitTriangle = Triangle.new Rat.sqrt ⟨0, 0, 0⟩ ⟨1, 0, 0⟩ ⟨0, 1, 0⟩ ⟨0, 0, 1⟩ ∧
      unitTriangle.denom ≠ 0 ∧
      unitTriangle.toPlane.normalVec.dot ((Point.mk 1 0 0).sub ⟨0, 0, 0⟩) = 0 ∧
      unitTriangle.toPlane.normalVec.dot ((Point.mk 0 1 0).sub ⟨0, 0, 0⟩) = 0 ∧
      (unitTriangle.rayIntersect hitRay ≠ -1 →
        unitTriangle.rayIntersect hitRay = unitTriangle.toPlane.rayIntersect hitRay ∧
        almostZero ℚ < unitTriangle.rayIntersect hitRay ∧
        unitTriangle.alpha hitRay (unitTriangle.rayIntersect hitRay)
          + unitTriangle.beta hitRay (unitTriangle.rayIntersect hitRay)
          + unitTriangle.gamma hitRay (unitTriangle.rayIntersect hitRay) = 1) :=
  have hdeg : unitTriangle.denom ≠ 0 := by
    simp [unitTriangle, Triangle.new, Vector.dot, Point.sub]
  have hn0 : unitTriangle.toPlane.normalVec.dot ((Point.mk 1 0 0).sub ⟨0, 0, 0⟩) = 0 := by
    rw [unitTriangle_plane]
    simp [Vector.dot, Point.sub]
  have hn1 : unitTriangle.toPlane.normalVec.dot ((Point.mk 0 1 0).sub ⟨0, 0, 0⟩) = 0 := by
    rw [unitTriangle_plane]
    simp [Vector.dot, Point.sub]
  ⟨rfl, hdeg, hn0, hn1, fun hne =>
    have h := (triangle_rayIntersect_barycentric.1 ℚ Rat.sqrt ⟨0, 0, 0⟩ ⟨1, 0, 0⟩ ⟨0, 1, 0⟩
      ⟨0, 0, 1⟩ hitRay unitTriangle rfl hdeg hn0 hn1).2 hne
    ⟨h.1, h.2.1, h.2.2.1⟩⟩

/-- C6 at the unit sphere and the ray through its centre: the smaller root 2 is returned. -/
theorem sphere_rayIntersect_least_root_witness :
    axisRay.direction.dot axisRay.direction = 1 ∧ almostZero ℚ ≤ unitSphere.delta axisRay ∧
      0 ≤ Rat.sqrt (unitSphere.delta axisRay) ∧
      Rat.sqrt (unitSphere.delta axisRay) * Rat.sqrt (unitSphere.delta axisRay)
        = unitSphere.delta axisRay ∧
      unitSphere.rayIntersect Rat.sqrt axisRay = 2 := by
  have hunit : axisRay.direction.dot axisRay.direction = 1 := by simp [axisRay, Vector.dot]
  have hdelta : almostZero ℚ ≤ unitSphere.delta axisRay := by
    rw [axisRay_delta]; unfold almostZero; norm_num
  have hs0 : 0 ≤ Rat.sqrt (unitSphere.delta axisRay) := by
    rw [axisRay_delta, rat_sqrt_four]; norm_num
  have hs : Rat.sqrt (unitSphere.delta axisRay) * Rat.sqrt (unitSphere.delta axisRay)
      = unitSphere.delta axisRay := by
    rw [axisRay_delta, rat_sqrt_four]; norm_num
  have hB : unitSphere.coeffB axisRay = 6 := by
    simp [unitSphere, axisRay, Sphere.new, Sphere.coeffB, Vector.dot, Point.sub]
    norm_num
  have h := (sphere_rayIntersect_least_root Rat.sqrt unitSphere axisRay hunit hdelta hs0 hs).1
  rw [axisRay_delta, rat_sqrt_four, hB] at h
  refine ⟨hunit, hdelta, hs0, hs, ?_⟩
  rw [h (by unfold almostZero; norm_num)]
  norm_num

/-- C7 fails as stated: radius `1/100000`, distance `D = 1`, `u = (1, 0, 0)`. -/
theorem sphere_inward_ray_tiny_radius :
    (0 : ℚ) < 1 / 100000 ∧ (1 / 100000 : ℚ) < 1 ∧
      (Vector.mk (1 : ℚ) 0 0).dot (Vector.mk 1 0 0) = 1 ∧
      tinySphere.rayIntersect Rat.sqrt inwardRay = -1 ∧
      ¬ (tinySphere.rayIntersect Rat.sqrt inwardRay = 1 - 1 / 100000) := by
  refine ⟨by norm_num, by norm_num, by simp [Vector.dot], ?_⟩
  have hd : tinySphere.delta inwardRay < almostZero ℚ := by
    simp [tinySphere, inwardRay, Sphere.new, Sphere.delta, Sphere.coeffB, Sphere.coeffC,
      Vector.dot, Point.sub, Point.addVec, Vector.scale, almostZero]
    norm_num
  rw [sphere_rayIntersect_of_small Rat.sqrt tinySphere inwardRay hd]
  exact ⟨rfl, by norm_num⟩

/-- C7 (amended) at `R = 1`, `D = 3`, `u = (0, 0, 1)`. -/
theorem sphere_inward_ray_hit_witness :
    (Vector.mk (0 : ℚ) 0 1).dot (Vector.mk 0 0 1) = 1 ∧ (0 : ℚ) < 1 ∧
      almostZero ℚ ≤ 4 * 1 * 1 ∧ almostZero ℚ < 3 - 1 ∧ Rat.sqrt (4 * 1 * 1) = 2 * 1 ∧
      (Sphere.new ⟨0, 0, 0⟩ 1).rayIntersect Rat.sqrt
        ⟨(Point.mk 0 0 0).addVec ((Vector.mk 0 0 1).scale 3), (Vector.mk 0 0 1).scale (-1)⟩
        = 3 - 1 :=
  have hu : (Vector.mk (0 : ℚ) 0 1).dot (Vector.mk 0 0 1) = 1 := by simp [Vector.dot]
  have hthr : almostZero ℚ ≤ 4 * 1 * 1 := by unfold almostZero; norm_num
  have hgap : almostZero ℚ < 3 - 1 := by unfold almostZero; norm_num
  have hsq : Rat.sqrt (4 * 1 * 1) = 2 * 1 := by norm_num [rat_sqrt_four]
  ⟨hu, by norm_num, hthr, hgap, hsq,
    sphere_inward_ray_hit Rat.sqrt 1 3 ⟨0, 0, 1⟩ hu (by norm_num) hthr hgap hsq⟩

/-- C8 at the tangent ray of the unit sphere. -/
theorem sphere_tangent_no_hit_witness :
    (unitSphere.delta tangentRay = 0 ∨ unitSphere.delta tangentRay < almostZero ℚ) ∧
      unitSphere.rayIntersect Rat.sqrt tangentRay = -1 :=
  ⟨Or.inl tangentRay_delta,
    sphere_tangent_no_hit Rat.sqrt unitSphere tangentRay (Or.inl tangentRay_delta)⟩

/-- C10 fails as stated: origin at height `1e-9` above the plane `z = 0`. -/
theorem plane_getNormal_grazing_origin :
    ¬ ((grazingPlane.getNormal grazingRay 0 = grazingPlane.normalVec ∨
          grazingPlane.getNormal grazingRay 0 = grazingPlane.normalVec.scale (-1)) ∧
        0 ≤ (grazingPlane.getNormal grazingRay 0).dot (grazingRay.from_.sub grazingPlane.P0)) := by
  rintro ⟨_, h⟩
  have hn : ¬ (grazingPlane.normalVec.dot (grazingRay.from_.sub grazingPlane.P0) > almostZero ℚ) := by
    simp [grazingPlane, grazingRay, Vector.dot, Point.sub, almostZero]
    norm_num
  have hget : grazingPlane.getNormal grazingRay 0 = grazingPlane.normalVec.scale (-1) := by
    unfold Plane.getNormal
    simp only [if_neg hn]
  rw [hget] at h
  simp [grazingPlane, grazingRay, Vector.dot, Point.sub, Vector.scale] at h
  linarith

/-! ### Sentinel, degenerate triangles, transforms, shading and bounding boxes -/

/-- C12: for every Sphere, Plane and Triangle and every ray, `rayIntersect`
returns either exactly -1 or a value strictly greater than `almostZero`; so it
never returns 0, a value in `(0, almostZero]` or a negative value other than -1. -/
theorem rayIntersect_sentinel_or_above_threshold (sqrt : K → K) (shape : Shape K) (ray : Ray K) :
    shape.rayIntersect sqrt ray = -1 ∨ almostZero K < shape.rayIntersect sqrt ray := by
  have hplane : ∀ p : Plane K, p.rayIntersect ray = -1 ∨ almostZero K < p.rayIntersect ray := by
    intro p
    rcases plane_rayIntersect_cases p ray with ⟨_, h1⟩ | ⟨_, ht, h1⟩ | ⟨_, _, h1⟩
    · exact Or.inl h1
    · right; rw [h1]; exact ht
    · exact Or.inl h1
  cases shape with
  | sphere s =>
    show s.rayIntersect sqrt ray = -1 ∨ almostZero K < s.rayIntersect sqrt ray
    by_cases hd : s.delta ray < almostZero K
    · exact Or.inl (sphere_rayIntersect_of_small sqrt s ray hd)
    · obtain ⟨h1, h0, hn⟩ := sphere_rayIntersect_of_large sqrt s ray (le_of_not_lt hd)
      by_cases ht1 : (s.coeffB ray - sqrt (s.delta ray)) / 2 > almostZero K
      · right; rw [h1 ht1]; exact ht1
      · by_cases ht0 : (s.coeffB ray + sqrt (s.delta ray)) / 2 > almostZero K
        · right; rw [h0 ht1 ht0]; exact ht0
        · exact Or.inl (hn ht1 ht0)
  | plane p => exact hplane p
  | triangle T =>
    show T.rayIntersect ray = -1 ∨ almostZero K < T.rayIntersect ray
    by_cases hne : T.rayIntersect ray = -1
    · exact Or.inl hne
    · right
      obtain ⟨hiff, hval⟩ := triangle_rayIntersect_cases T ray
      obtain ⟨hge, _⟩ := hiff.mp hne
      rw [hval hne]
      rcases hplane T.toPlane with h | h
      · exfalso
        apply hge
        rw [h]
        have := almostZero_pos (K := K)
        linarith
      · exact h

/-- C17: with an empty light list and a zero global ambient light,
`Material::shade` returns the zero colour vector, whatever the material, the
point, the view vector and the normal. -/
theorem shade_no_light_no_ambient (sqrt : K → K) (objects : List (Material K))
    (self : Material K) (point : Point K) (view normal : Vector K) :
    Material.shade sqrt objects [] ⟨0, 0, 0⟩ self point view normal = ⟨0, 0, 0⟩ := by
  simp [Material.shade, Vector.scale, Vector.elementWiseMultiplication]

/-- C15: `applyTransform` with the translation by `V` followed by `applyTransform`
with the translation by `−V` leaves `getPoint()` of every shape unchanged. -/
theorem translate_there_and_back_getPoint (sqrt : K → K) (shape : Shape K) (V : Vector K) :
    ((shape.applyTransform sqrt (Matrix.translation V)).applyTransform sqrt
        (Matrix.translation (V.scale (-1)))).getPoint = shape.getPoint := by
  have hback : ∀ p : Point K,
      (Matrix.translation (V.scale (-1))).mulPoint ((Matrix.translation V).mulPoint p) = p := by
    intro p
    ext <;> simp [Matrix.mulPoint, Matrix.translation, Vector.scale]
  cases shape with
  | sphere s =>
    show (Matrix.translation (V.scale (-1))).mulPoint ((Matrix.translation V).mulPoint s.center)
      = s.center
    exact hback _
  | plane p =>
    show (Matrix.translation (V.scale (-1))).mulPoint ((Matrix.translation V).mulPoint p.P0)
      = p.P0
    exact hback _
  | triangle T => rfl

/-- Adding the zero vector changes nothing. -/
theorem vector_add_zero (v : Vector K) : v.add ⟨0, 0, 0⟩ = v := by
  ext <;> simp [Vector.add]

/-- C16: with exactly one light whose shadow query finds no occluder,
`Material::shade` returns `color ⊙ (ambient·ka) + D + S`, where `L` is the unit
direction from the point to the light, `r = 2·(n·L)·n − L`,
`D = color ⊙ lightColor · kd · (n·L) · intensity` when `n·L > 0` and zero otherwise,
and `S = lightColor · ks · (r·view)^eta · intensity` when `r·view > 0` and zero
otherwise; no clamping is applied. -/
theorem shade_single_unoccluded_light (sqrt : K → K) (objects : List (Material K))
    (light : Light K) (ambientLight : Vector K) (self : Material K) (point : Point K)
    (view normal : Vector K)
    (hfree : (Material.nearest sqrt objects (Ray.towards sqrt point light.position)).1 = none) :
    Material.shade sqrt objects [light] ambientLight self point view normal
      = ((self.color.elementWiseMultiplication (ambientLight.scale self.ka)).add
          (if normal.dot ((light.position.sub point).normalize sqrt) > 0 then
            (((self.color.elementWiseMultiplication light.color).scale self.kd).scale
              (normal.dot ((light.position.sub point).normalize sqrt))).scale light.intensity
          else ⟨0, 0, 0⟩)).add
        (if (((normal.scale 2).scale (normal.dot ((light.position.sub point).normalize sqrt))).sub
              ((light.position.sub point).normalize sqrt)).dot view > 0 then
          ((light.color.scale self.ks).scale
            ((((normal.scale 2).scale
                  (normal.dot ((light.position.sub point).normalize sqrt))).sub
                ((light.position.sub point).normalize sqrt)).dot view ^ self.eta)).scale
            light.intensity
        else ⟨0, 0, 0⟩) := by
  have hlit : Material.lit sqrt objects point light := by
    unfold Material.lit
    exact Or.inl hfree
  have hcomm : ((light.position.sub point).normalize sqrt).dot normal
      = normal.dot ((light.position.sub point).normalize sqrt) := by
    simp only [Vector.dot]
    ring
  simp only [Material.shade, List.foldl, Material.shadeStep, if_pos hlit, hcomm]
  by_cases hd : normal.dot ((light.position.sub point).normalize sqrt) > 0
  · by_cases hs : (((normal.scale 2).scale
          (normal.dot ((light.position.sub point).normalize sqrt))).sub
        ((light.position.sub point).normalize sqrt)).dot view > 0
    · simp only [if_pos hd, if_pos hs]
    · simp only [if_pos hd, if_neg hs, vector_add_zero]
  · by_cases hs : (((normal.scale 2).scale
          (normal.dot ((light.position.sub point).normalize sqrt))).sub
        ((light.position.sub point).normalize sqrt)).dot view > 0
    · simp only [if_neg hd, if_pos hs, vector_add_zero]
    · simp only [if_neg hd, if_neg hs, vector_add_zero]

/-- C18: when some shape is hit at a positive parameter, the material returned by
`Material::nearest` is the first one in registry order whose shape attains the
returned parameter; and one iteration replaces the current best only by a
strictly smaller parameter. -/
theorem nearest_first_on_tie (sqrt : K → K) (objects : List (Material K)) (ray : Ray K)
    (h : ∃ m ∈ objects, 0 < m.getShape.rayIntersect sqrt ray) :
    (∃ (i : Nat) (m : Material K) (t : K),
      Material.nearest sqrt objects ray = (some i, (t : WithTop K)) ∧
      objects[i]? = some m ∧
      m.getShape.rayIntersect sqrt ray = t ∧
      ∀ (j : Nat) (m2 : Material K), objects[j]? = some m2 →
        m2.getShape.rayIntersect sqrt ray = t → i ≤ j) ∧
    (∀ (acc : Option Nat × WithTop K) (i : Nat) (m : Material K),
      Material.nearestStep sqrt ray acc i m ≠ acc →
        ((m.getShape.rayIntersect sqrt ray : K) : WithTop K) < acc.2) := by
  constructor
  · obtain ⟨m0, hm0, hpos0⟩ := h
    obtain ⟨_, hmin, hres⟩ := nearestLoop_spec sqrt ray objects 0 (none, ⊤)
    have hfin : (Material.nearestLoop sqrt ray objects 0 (none, ⊤)).2 ≠ ⊤ := by
      intro htop
      have h1 := hmin m0 hm0 hpos0
      rw [htop] at h1
      exact absurd h1 (not_le_of_lt (WithTop.coe_lt_top _))
    rcases hres with hres | ⟨j, m, hj, hres, hpos, _, hfirst⟩
    · rw [hres] at hfin
      exact absurd rfl hfin
    · refine ⟨j, m, m.getShape.rayIntersect sqrt ray, ?_, hj, rfl, ?_⟩
      · unfold Material.nearest
        simp only [if_pos hfin]
        rw [hres]
        simp
      · intro j2 m2 hj2 heq
        by_contra hlt
        have hlt2 : j2 < j := Nat.lt_of_not_le hlt
        have := hfirst j2 m2 hlt2 hj2 (by rw [heq]; exact hpos)
        rw [heq] at this
        exact lt_irrefl _ this
  · intro acc i m hne
    rcases nearestStep_cases sqrt ray acc i m with ⟨h1, _⟩ | ⟨_, _, hlt⟩
    · exact absurd h1 hne
    · exact hlt

/-- C19: at construction the bounding box encloses the primitive.  The box of a
triangle has the componentwise minimum and maximum of the three vertices as
corners and contains every convex combination of the vertices; the box of a
sphere of radius `R ≥ 0` goes from `center − (R,R,R)` to `center + (R,R,R)` and
contains every point at distance at most `R` from the centre. -/
theorem boundingBox_encloses_at_construction (sqrt : K → K) :
    (∀ (p0 p1 p2 : Point K) (normal : Vector K),
      (Triangle.new sqrt p0 p1 p2 normal).getBoundingBox
        = AABB.box ⟨min (min p0.x p1.x) p2.x, min (min p0.y p1.y) p2.y, min (min p0.z p1.z) p2.z⟩
            ⟨max (max p0.x p1.x) p2.x, max (max p0.y p1.y) p2.y, max (max p0.z p1.z) p2.z⟩ ∧
      ∀ a b g : K, 0 ≤ a → 0 ≤ b → 0 ≤ g → a + b + g = 1 →
        (Triangle.new sqrt p0 p1 p2 normal).getBoundingBox.contains
          ⟨a * p0.x + b * p1.x + g * p2.x, a * p0.y + b * p1.y + g * p2.y,
            a * p0.z + b * p1.z + g * p2.z⟩) ∧
    (∀ (center : Point K) (R : K), 0 ≤ R →
      (Sphere.new center R).getBoundingBox
        = AABB.box (center.subVec ⟨R, R, R⟩) (center.addVec ⟨R, R, R⟩) ∧
      ∀ p : Point K, (p.sub center).dot (p.sub center) ≤ R * R →
        (Sphere.new center R).getBoundingBox.contains p) := by
  have hlow : ∀ (u v w a b g : K), 0 ≤ a → 0 ≤ b → 0 ≤ g → a + b + g = 1 →
      min (min u v) w ≤ a * u + b * v + g * w := by
    intro u v w a b g ha hb hg hsum
    have h1 : min (min u v) w ≤ u := le_trans (min_le_left _ _) (min_le_left _ _)
    have h2 : min (min u v) w ≤ v := le_trans (min_le_left _ _) (min_le_right _ _)
    have h3 : min (min u v) w ≤ w := min_le_right _ _
    have e : min (min u v) w = a * min (min u v) w + b * min (min u v) w + g * min (min u v) w := by
      linear_combination (-(min (min u v) w)) * hsum
    rw [e]
    have := mul_le_mul_of_nonneg_left h1 ha
    have := mul_le_mul_of_nonneg_left h2 hb
    have := mul_le_mul_of_nonneg_left h3 hg
    linarith
  have hhigh : ∀ (u v w a b g : K), 0 ≤ a → 0 ≤ b → 0 ≤ g → a + b + g = 1 →
      a * u + b * v + g * w ≤ max (max u v) w := by
    intro u v w a b g ha hb hg hsum
    have h1 : u ≤ max (max u v) w := le_trans (le_max_left _ _) (le_max_left _ _)
    have h2 : v ≤ max (max u v) w := le_trans (le_max_right _ _) (le_max_left _ _)
    have h3 : w ≤ max (max u v) w := le_max_right _ _
    have e : max (max u v) w = a * max (max u v) w + b * max (max u v) w + g * max (max u v) w := by
      linear_combination (-(max (max u v) w)) * hsum
    rw [e]
    have := mul_le_mul_of_nonneg_left h1 ha
    have := mul_le_mul_of_nonneg_left h2 hb
    have := mul_le_mul_of_nonneg_left h3 hg
    linarith
  have hcoord : ∀ (d e f R : K), 0 ≤ R → d * d + e * e + f * f ≤ R * R → -R ≤ d ∧ d ≤ R := by
    intro d e f R hR h
    have hd : d * d ≤ R * R := by nlinarith [mul_self_nonneg e, mul_self_nonneg f]
    have habs : |d| ≤ R := abs_le_of_sq_le_sq (by simpa [sq] using hd) hR
    exact abs_le.mp habs
  constructor
  · intro p0 p1 p2 normal
    refine ⟨rfl, ?_⟩
    intro a b g ha hb hg hsum
    show AABB.contains (AABB.box _ _) _
    simp only [AABB.contains, minBound, maxBound]
    exact ⟨hlow _ _ _ a b g ha hb hg hsum, hhigh _ _ _ a b g ha hb hg hsum,
      hlow _ _ _ a b g ha hb hg hsum, hhigh _ _ _ a b g ha hb hg hsum,
      hlow _ _ _ a b g ha hb hg hsum, hhigh _ _ _ a b g ha hb hg hsum⟩
  · intro center R hR
    refine ⟨rfl, ?_⟩
    intro p hp
    show AABB.contains (AABB.box _ _) _
    simp only [Vector.dot, Point.sub] at hp
    simp only [AABB.contains, Point.subVec, Point.addVec]
    obtain ⟨hx1, hx2⟩ := hcoord (p.x - center.x) (p.y - center.y) (p.z - center.z) R hR hp
    obtain ⟨hy1, hy2⟩ := hcoord (p.y - center.y) (p.x - center.x) (p.z - center.z) R hR
      (by linarith)
    obtain ⟨hz1, hz2⟩ := hcoord (p.z - center.z) (p.x - center.x) (p.y - center.y) R hR
      (by linarith)
    refine ⟨?_, ?_, ?_, ?_, ?_, ?_⟩ <;> linarith

/-- Two vectors are linearly dependent exactly when the Gram determinant
`(e0·e0)(e1·e1) − (e0·e1)²` is 0. -/
theorem gram_zero_iff_dependent (e0 e1 : Vector K) :
    e0.dot e0 * e1.dot e1 - e0.dot e1 * e0.dot e1 = 0 ↔
      ∃ a b : K, (a ≠ 0 ∨ b ≠ 0) ∧ (e0.scale a).add (e1.scale b) = ⟨0, 0, 0⟩ := by
  obtain ⟨ax, ay, az⟩ := e0
  obtain ⟨bx, by_, bz⟩ := e1
  simp only [Vector.dot, Vector.scale, Vector.add, Vector.mk.injEq]
  have hww : (ax * ax + ay * ay + az * az) * (bx * bx + by_ * by_ + bz * bz)
      - (ax * bx + ay * by_ + az * bz) * (ax * bx + ay * by_ + az * bz)
      = (ay * bz - az * by_) * (ay * bz - az * by_) + (az * bx - ax * bz) * (az * bx - ax * bz)
        + (ax * by_ - ay * bx) * (ax * by_ - ay * bx) := by ring
  rw [hww]
  constructor
  · intro h
    have hx : ay * bz - az * by_ = 0 := by
      have := mul_self_nonneg (ay * bz - az * by_)
      have := mul_self_nonneg (az * bx - ax * bz)
      have := mul_self_nonneg (ax * by_ - ay * bx)
      exact mul_self_eq_zero.mp (by linarith)
    have hy : az * bx - ax * bz = 0 := by
      have := mul_self_nonneg (ay * bz - az * by_)
      have := mul_self_nonneg (az * bx - ax * bz)
      have := mul_self_nonneg (ax * by_ - ay * bx)
      exact mul_self_eq_zero.mp (by linarith)
    have hz : ax * by_ - ay * bx = 0 := by
      have := mul_self_nonneg (ay * bz - az * by_)
      have := mul_self_nonneg (az * bx - ax * bz)
      have := mul_self_nonneg (ax * by_ - ay * bx)
      exact mul_self_eq_zero.mp (by linarith)
    by_cases h1 : ax = 0
    · by_cases h2 : ay = 0
      · by_cases h3 : az = 0
        · exact ⟨1, 0, Or.inl one_ne_zero, by rw [h1]; ring, by rw [h2]; ring, by rw [h3]; ring⟩
        · refine ⟨bz, -az, Or.inr (neg_ne_zero.mpr h3), ?_, ?_, ?_⟩
          · linear_combination -hy
          · linear_combination hx
          · ring
      · refine ⟨by_, -ay, Or.inr (neg_ne_zero.mpr h2), ?_, ?_, ?_⟩
        · linear_combination hz
        · ring
        · linear_combination -hx
    · refine ⟨bx, -ax, Or.inr (neg_ne_zero.mpr h1), ?_, ?_, ?_⟩
      · ring
      · linear_combination -hz
      · linear_combination hy
  · rintro ⟨a, b, hab, hx, hy, hz⟩
    have hwx : ay * bz - az * by_ = 0 := by
      rcases hab with ha | hb
      · have : a * (ay * bz - az * by_) = 0 := by linear_combination bz * hy - by_ * hz
        exact (mul_eq_zero.mp this).resolve_left ha
      · have : b * (ay * bz - az * by_) = 0 := by linear_combination ay * hz - az * hy
        exact (mul_eq_zero.mp this).resolve_left hb
    have hwy : az * bx - ax * bz = 0 := by
      rcases hab with ha | hb
      · have : a * (az * bx - ax * bz) = 0 := by linear_combination bx * hz - bz * hx
        exact (mul_eq_zero.mp this).resolve_left ha
      · have : b * (az * bx - ax * bz) = 0 := by linear_combination az * hx - ax * hz
        exact (mul_eq_zero.mp this).resolve_left hb
    have hwz : ax * by_ - ay * bx = 0 := by
      rcases hab with ha | hb
      · have : a * (ax * by_ - ay * bx) = 0 := by linear_combination by_ * hx - bx * hy
        exact (mul_eq_zero.mp this).resolve_left ha
      · have : b * (ax * by_ - ay * bx) = 0 := by linear_combination ax * hy - ay * hx
        exact (mul_eq_zero.mp this).resolve_left hb
    rw [hwx, hwy, hwz]
    ring

/-- C13: for a triangle built by the constructor, the precomputed `denom` is 0
exactly when the three vertices are collinear or coincident, and in that case
`Triangle::rayIntersect` returns -1 for every ray. -/
theorem triangle_zero_area_miss (sqrt : K → K) (p0 p1 p2 : Point K) (normal : Vector K) :
    ((Triangle.new sqrt p0 p1 p2 normal).denom = 0 ↔ ZeroArea p0 p1 p2) ∧
    (ZeroArea p0 p1 p2 → ∀ ray : Ray K,
      (Triangle.new sqrt p0 p1 p2 normal).rayIntersect ray = -1) := by
  have hiff : (Triangle.new sqrt p0 p1 p2 normal).denom = 0 ↔ ZeroArea p0 p1 p2 :=
    gram_zero_iff_dependent (p1.sub p0) (p2.sub p0)
  refine ⟨hiff, ?_⟩
  intro hz ray
  by_contra hne
  exact ((triangle_rayIntersect_cases (Triangle.new sqrt p0 p1 p2 normal) ray).1.mp hne).2.1
    (hiff.mpr hz)

/-- The accumulation loop of `ObjReader::getCenter` adds the coordinate sums of
the vertices to the accumulator. -/
theorem foldl_point_add (l : List (Point K)) :
    ∀ acc : Point K, l.foldl (fun (p v : Point K) => p.add v) acc
      = ⟨acc.x + (l.map Point.x).sum, acc.y + (l.map Point.y).sum,
          acc.z + (l.map Point.z).sum⟩ := by
  induction l with
  | nil =>
    intro acc
    simp
  | cons v rest ih =>
    intro acc
    rw [List.foldl_cons, ih]
    simp only [List.map_cons, List.sum_cons, Point.add, add_assoc]

/-- Coordinates of `ObjReader::getCenter`: the coordinate sums over the number of vertices. -/
theorem getCenter_eq (r : ObjReader K) :
    r.getCenter = ⟨(r.vertices.map Point.x).sum / (r.vertices.length : K),
      (r.vertices.map Point.y).sum / (r.vertices.length : K),
      (r.vertices.map Point.z).sum / (r.vertices.length : K)⟩ := by
  unfold ObjReader.getCenter
  rw [foldl_point_add]
  simp [Point.divide]

/-- Sum over a list of a coordinate that is affine in the displacement from `c`. -/
theorem sum_affine (g : Point K → K) (a1 a2 a3 c0 cx cy cz : K)
    (hg : ∀ v : Point K, g v = a1 * (v.x - cx) + a2 * (v.y - cy) + a3 * (v.z - cz) + c0)
    (l : List (Point K)) :
    (l.map g).sum
      = a1 * ((l.map Point.x).sum - (l.length : K) * cx)
        + a2 * ((l.map Point.y).sum - (l.length : K) * cy)
        + a3 * ((l.map Point.z).sum - (l.length : K) * cz) + (l.length : K) * c0 := by
  induction l with
  | nil => simp
  | cons v rest ih =>
    simp only [List.map_cons, List.sum_cons, List.length_cons, Nat.cast_succ, ih, hg v]
    ring

/-- For an affine matrix without translation part, the matrix assigned by
`ObjReader::applyTransform` maps `v` to `M·(v − center) + center`. -/
theorem conjugated_mulPoint (r : ObjReader K) (M : Matrix K)
    (htrans : M 0 3 = 0 ∧ M 1 3 = 0 ∧ M 2 3 = 0)
    (hrow : M 3 0 = 0 ∧ M 3 1 = 0 ∧ M 3 2 = 0 ∧ M 3 3 = 1) (v : Point K) :
    (r.conjugated M).mulPoint v
      = ⟨M 0 0 * (v.x - r.center.x) + M 0 1 * (v.y - r.center.y) + M 0 2 * (v.z - r.center.z)
            + r.center.x,
          M 1 0 * (v.x - r.center.x) + M 1 1 * (v.y - r.center.y) + M 1 2 * (v.z - r.center.z)
            + r.center.y,
          M 2 0 * (v.x - r.center.x) + M 2 1 * (v.y - r.center.y) + M 2 2 * (v.z - r.center.z)
            + r.center.z⟩ := by
  obtain ⟨h03, h13, h23⟩ := htrans
  obtain ⟨h30, h31, h32, h33⟩ := hrow
  ext
  · simp [ObjReader.conjugated, Matrix.mulPoint, Matrix.mul, Matrix.translation, Point.scale,
      Point.toVector, h03, h30, h31, h32, h33]
    ring
  · simp [ObjReader.conjugated, Matrix.mulPoint, Matrix.mul, Matrix.translation, Point.scale,
      Point.toVector, h13, h30, h31, h32, h33]
    ring
  · simp [ObjReader.conjugated, Matrix.mulPoint, Matrix.mul, Matrix.translation, Point.scale,
      Point.toVector, h23, h30, h31, h32, h33]
    ring

/-- C20: for a reader with a non-empty vertex list whose cached centre is its
centroid, and an affine matrix `M` whose translation part is zero,
`ObjReader::applyTransform(M)` leaves the centroid unchanged: `getCenter()` after
the call equals `getCenter()` before it. -/
theorem objReader_linear_transform_keeps_center (r : ObjReader K) (M : Matrix K)
    (hne : r.vertices ≠ [])
    (hcenter : r.center = r.getCenter)
    (htrans : M 0 3 = 0 ∧ M 1 3 = 0 ∧ M 2 3 = 0)
    (hrow : M 3 0 = 0 ∧ M 3 1 = 0 ∧ M 3 2 = 0 ∧ M 3 3 = 1) :
    (r.applyTransform M).1.getCenter = r.getCenter ∧
      (r.applyTransform M).1.center = r.getCenter := by
  have hn : (r.vertices.length : K) ≠ 0 := by
    have : r.vertices.length ≠ 0 := fun h => hne (List.length_eq_zero.mp h)
    exact_mod_cast this
  have hc := getCenter_eq r
  rw [← hcenter] at hc
  have hcx : (r.vertices.map Point.x).sum - (r.vertices.length : K) * r.center.x = 0 := by
    rw [hc]; field_simp
  have hcy : (r.vertices.map Point.y).sum - (r.vertices.length : K) * r.center.y = 0 := by
    rw [hc]; field_simp
  have hcz : (r.vertices.map Point.z).sum - (r.vertices.length : K) * r.center.z = 0 := by
    rw [hc]; field_simp
  have hmain : (r.applyTransform M).1.getCenter = r.getCenter := by
    rw [← hcenter, getCenter_eq]
    simp only [ObjReader.applyTransform, List.map_map, List.length_map]
    have hx := sum_affine (Point.x ∘ fun v => (r.conjugated M).mulPoint v) (M 0 0) (M 0 1) (M 0 2)
      r.center.x r.center.x r.center.y r.center.z
      (fun v => by simp only [Function.comp, conjugated_mulPoint r M htrans hrow v]) r.vertices
    have hy := sum_affine (Point.y ∘ fun v => (r.conjugated M).mulPoint v) (M 1 0) (M 1 1) (M 1 2)
      r.center.y r.center.x r.center.y r.center.z
      (fun v => by simp only [Function.comp, conjugated_mulPoint r M htrans hrow v]) r.vertices
    have hz := sum_affine (Point.z ∘ fun v => (r.conjugated M).mulPoint v) (M 2 0) (M 2 1) (M 2 2)
      r.center.z r.center.x r.center.y r.center.z
      (fun v => by simp only [Function.comp, conjugated_mulPoint r M htrans hrow v]) r.vertices
    rw [hx, hy, hz, hcx, hcy, hcz]
    ext
    · show _ = r.center.x
      field_simp
    · show _ = r.center.y
      field_simp
    · show _ = r.center.z
      field_simp
  exact ⟨hmain, hmain⟩

/-- Radius after `Sphere::applyTransform` with an axis scale, for a square root
that is exact on squares. -/
theorem sphere_axis_scale_radius (sqrt : K → K) (hsqrt : ∀ x : K, sqrt (x * x) = |x|)
    (s : Sphere K) (a b c : K) :
    (s.applyTransform sqrt (Matrix.scale a b c)).R = s.R * ((|a| + |b| + |c|) / 3) := by
  have ha : a ^ 2 + (0 : K) ^ 2 + (0 : K) ^ 2 = a * a := by ring
  have hb : (0 : K) ^ 2 + b ^ 2 + (0 : K) ^ 2 = b * b := by ring
  have hc : (0 : K) ^ 2 + (0 : K) ^ 2 + c ^ 2 = c * c := by ring
  have e00 : Matrix.scale a b c 0 0 = a := by simp [Matrix.scale]
  have e10 : Matrix.scale a b c 1 0 = 0 := by simp [Matrix.scale]
  have e20 : Matrix.scale a b c 2 0 = 0 := by simp [Matrix.scale]
  have e01 : Matrix.scale a b c 0 1 = 0 := by simp [Matrix.scale]
  have e11 : Matrix.scale a b c 1 1 = b := by simp [Matrix.scale]
  have e21 : Matrix.scale a b c 2 1 = 0 := by simp [Matrix.scale]
  have e02 : Matrix.scale a b c 0 2 = 0 := by simp [Matrix.scale]
  have e12 : Matrix.scale a b c 1 2 = 0 := by simp [Matrix.scale]
  have e22 : Matrix.scale a b c 2 2 = c := by simp [Matrix.scale]
  simp only [Sphere.applyTransform, e00, e10, e20, e01, e11, e21, e02, e12, e22, ha, hb, hc,
    hsqrt]

/-- C14 (amended): when the square root is exact on squares, `Sphere::applyTransform`
with the uniform scale by `k` gives the radius `R·|k|`, and with the axis scale
`(sx, sy, sz)` the radius `R·(|sx| + |sy| + |sz|)/3`; these are `R·k` and
`R·(sx + sy + sz)/3` when the factors are not negative; the centre becomes
`M·center`. -/
theorem sphere_scale_radius (sqrt : K → K) (hsqrt : ∀ x : K, sqrt (x * x) = |x|)
    (s : Sphere K) (k sx sy sz : K) :
    (s.applyTransform sqrt (Matrix.scale k k k)).R = s.R * |k| ∧
    (s.applyTransform sqrt (Matrix.scale sx sy sz)).R = s.R * ((|sx| + |sy| + |sz|) / 3) ∧
    (0 ≤ k → (s.applyTransform sqrt (Matrix.scale k k k)).R = s.R * k) ∧
    (0 ≤ sx → 0 ≤ sy → 0 ≤ sz →
      (s.applyTransform sqrt (Matrix.scale sx sy sz)).R = s.R * (sx + sy + sz) / 3) ∧
    (s.applyTransform sqrt (Matrix.scale k k k)).center = (Matrix.scale k k k).mulPoint s.center ∧
    (s.applyTransform sqrt (Matrix.scale sx sy sz)).center
      = (Matrix.scale sx sy sz).mulPoint s.center := by
  have hgen := sphere_axis_scale_radius sqrt hsqrt s
  refine ⟨?_, hgen sx sy sz, ?_, ?_, rfl, rfl⟩
  · rw [hgen]; ring
  · intro hk
    rw [hgen, abs_of_nonneg hk]; ring
  · intro hx hy hz
    rw [hgen, abs_of_nonneg hx, abs_of_nonneg hy, abs_of_nonneg hz]; ring

/-- A registry of one material that is not hit. -/
theorem nearest_single_skip (sqrt : K → K) (a : Material K) (ray : Ray K)
    (ha : ¬ 0 < a.getShape.rayIntersect sqrt ray) :
    Material.nearest sqrt [a] ray = (none, ⊤) := by
  have hloop : Material.nearestLoop sqrt ray [a] 0 (none, ⊤) = (none, ⊤) := by
    simp only [Material.nearestLoop, nearestStep_skip sqrt ray _ 0 a ha]
  unfold Material.nearest
  rw [hloop]
  simp

/-! ### Further claims on the concrete inputs -/

/-- The sphere `unitSphere` after `applyTransform(liftMatrix)`. -/
theorem lifted_sphere :
    unitSphere.applyTransform Rat.sqrt liftMatrix
      = { center := ⟨0, 0, 5⟩, R := 1, boundingBox := AABB.box ⟨-1, -1, -1⟩ ⟨1, 1, 1⟩ } := by
  have e00 : liftMatrix 0 0 = 1 := by simp [liftMatrix, Matrix.translation]
  have e10 : liftMatrix 1 0 = 0 := by simp [liftMatrix, Matrix.translation]
  have e20 : liftMatrix 2 0 = 0 := by simp [liftMatrix, Matrix.translation]
  have e01 : liftMatrix 0 1 = 0 := by simp [liftMatrix, Matrix.translation]
  have e11 : liftMatrix 1 1 = 1 := by simp [liftMatrix, Matrix.translation]
  have e21 : liftMatrix 2 1 = 0 := by simp [liftMatrix, Matrix.translation]
  have e02 : liftMatrix 0 2 = 0 := by simp [liftMatrix, Matrix.translation]
  have e12 : liftMatrix 1 2 = 0 := by simp [liftMatrix, Matrix.translation]
  have e22 : liftMatrix 2 2 = 1 := by simp [liftMatrix, Matrix.translation]
  have h1 : (1 : ℚ) ^ 2 + 0 ^ 2 + 0 ^ 2 = 1 := by norm_num
  have h2 : (0 : ℚ) ^ 2 + 1 ^ 2 + 0 ^ 2 = 1 := by norm_num
  have h3 : (0 : ℚ) ^ 2 + 0 ^ 2 + 1 ^ 2 = 1 := by norm_num
  simp only [Sphere.applyTransform, e00, e10, e20, e01, e11, e21, e02, e12, e22, h1, h2, h3,
    rat_sqrt_one, lift_point, unitSphere, Sphere.new, Point.subVec, Point.addVec]
  norm_num

/-- C11: after `applyTransform` with the translation by `(0, 0, 5)`,
`getBoundingBox()` of the unit sphere and of the unit triangle is still the box
computed by the constructor, not the box of the transformed primitive. -/
theorem boundingBox_stale_after_transform :
    (unitSphere.applyTransform Rat.sqrt liftMatrix).getBoundingBox
      = AABB.box ⟨-1, -1, -1⟩ ⟨1, 1, 1⟩ ∧
    (unitSphere.applyTransform Rat.sqrt liftMatrix).center = ⟨0, 0, 5⟩ ∧
    (unitSphere.applyTransform Rat.sqrt liftMatrix).R = 1 ∧
    (unitSphere.applyTransform Rat.sqrt liftMatrix).getBoundingBox
      ≠ AABB.box
          ((unitSphere.applyTransform Rat.sqrt liftMatrix).center.subVec
            ⟨(unitSphere.applyTransform Rat.sqrt liftMatrix).R,
              (unitSphere.applyTransform Rat.sqrt liftMatrix).R,
              (unitSphere.applyTransform Rat.sqrt liftMatrix).R⟩)
          ((unitSphere.applyTransform Rat.sqrt liftMatrix).center.addVec
            ⟨(unitSphere.applyTransform Rat.sqrt liftMatrix).R,
              (unitSphere.applyTransform Rat.sqrt liftMatrix).R,
              (unitSphere.applyTransform Rat.sqrt liftMatrix).R⟩) ∧
    (unitTriangle.applyTransform Rat.sqrt liftMatrix).getBoundingBox
      = AABB.box ⟨0, 0, 0⟩ ⟨1, 1, 0⟩ ∧
    (unitTriangle.applyTransform Rat.sqrt liftMatrix).p0 = ⟨0, 0, 5⟩ ∧
    (unitTriangle.applyTransform Rat.sqrt liftMatrix).p1 = ⟨1, 0, 5⟩ ∧
    (unitTriangle.applyTransform Rat.sqrt liftMatrix).p2 = ⟨0, 1, 5⟩ ∧
    (unitTriangle.applyTransform Rat.sqrt liftMatrix).getBoundingBox
      ≠ AABB.box
          (minBound (minBound (unitTriangle.applyTransform Rat.sqrt liftMatrix).p0
            (unitTriangle.applyTransform Rat.sqrt liftMatrix).p1)
            (unitTriangle.applyTransform Rat.sqrt liftMatrix).p2)
          (maxBound (maxBound (unitTriangle.applyTransform Rat.sqrt liftMatrix).p0
            (unitTriangle.applyTransform Rat.sqrt liftMatrix).p1)
            (unitTriangle.applyTransform Rat.sqrt liftMatrix).p2) := by
  have hp0 : (unitTriangle.applyTransform Rat.sqrt liftMatrix).p0 = ⟨0, 0, 5⟩ := by
    simp [Triangle.applyTransform, unitTriangle, Triangle.new, lift_point]
  have hp1 : (unitTriangle.applyTransform Rat.sqrt liftMatrix).p1 = ⟨1, 0, 5⟩ := by
    simp [Triangle.applyTransform, unitTriangle, Triangle.new, lift_point]
  have hp2 : (unitTriangle.applyTransform Rat.sqrt liftMatrix).p2 = ⟨0, 1, 5⟩ := by
    simp [Triangle.applyTransform, unitTriangle, Triangle.new, lift_point]
  have hbt : (unitTriangle.applyTransform Rat.sqrt liftMatrix).getBoundingBox
      = AABB.box ⟨0, 0, 0⟩ ⟨1, 1, 0⟩ := by
    simp [Triangle.getBoundingBox, Triangle.applyTransform, unitTriangle, Triangle.new, minBound,
      maxBound]
  refine ⟨?_, ?_, ?_, ?_, hbt, hp0, hp1, hp2, ?_⟩
  · rw [lifted_sphere]; rfl
  · rw [lifted_sphere]
  · rw [lifted_sphere]
  · rw [lifted_sphere]
    simp [Sphere.getBoundingBox, Point.subVec, Point.addVec]
  · rw [hbt, hp0, hp1, hp2]
    simp [minBound, maxBound]

/-- C14 fails as stated: the uniform scale by `k = −2` on the unit sphere gives
the radius 2, not `R·k = −2`. -/
theorem sphere_negative_scale_radius :
    (unitSphere.applyTransform Rat.sqrt mirrorMatrix).R = 2 ∧
      ¬ ((unitSphere.applyTransform Rat.sqrt mirrorMatrix).R = unitSphere.R * (-2)) := by
  have h := sphere_axis_scale_radius Rat.sqrt Rat.sqrt_eq unitSphere (-2) (-2) (-2)
  have hR : unitSphere.R = 1 := rfl
  rw [hR] at h
  have h2 : (unitSphere.applyTransform Rat.sqrt mirrorMatrix).R = 2 := by
    unfold mirrorMatrix
    rw [h]
    norm_num
  rw [h2, hR]
  exact ⟨rfl, by norm_num⟩

/-- C14 (amended) at the unit sphere with the factors 2 and `(1, 2, 3)`. -/
theorem sphere_scale_radius_witness :
    (∀ x : ℚ, Rat.sqrt (x * x) = |x|) ∧
      (unitSphere.applyTransform Rat.sqrt (Matrix.scale 2 2 2)).R = unitSphere.R * |2| ∧
      (unitSphere.applyTransform Rat.sqrt (Matrix.scale 1 2 3)).R
        = unitSphere.R * ((|1| + |2| + |3|) / 3) :=
  ⟨Rat.sqrt_eq, (sphere_scale_radius Rat.sqrt Rat.sqrt_eq unitSphere 2 1 2 3).1,
    (sphere_scale_radius Rat.sqrt Rat.sqrt_eq unitSphere 2 1 2 3).2.1⟩

/-- C16 at the registry that holds only the floor, with the light above the
shaded floor point. -/
theorem shade_single_unoccluded_light_witness :
    (Material.nearest Rat.sqrt [shadowFloor]
        (Ray.towards Rat.sqrt ⟨0, 0, 0⟩ shadowLight.position)).1 = none ∧
      Material.shade Rat.sqrt [shadowFloor] [shadowLight] ⟨0, 0, 0⟩ shadowFloor ⟨0, 0, 0⟩
        ⟨0, 0, 1⟩ ⟨0, 0, 1⟩ = ⟨2, 2, 2⟩ := by
  have hray : Ray.towards Rat.sqrt ⟨0, 0, 0⟩ shadowLight.position = ⟨⟨0, 0, 0⟩, ⟨0, 0, 1⟩⟩ := by
    unfold Ray.towards
    rw [shadow_direction]
  have hfree : (Material.nearest Rat.sqrt [shadowFloor]
      (Ray.towards Rat.sqrt ⟨0, 0, 0⟩ shadowLight.position)).1 = none := by
    rw [hray, nearest_single_skip Rat.sqrt shadowFloor _ (by rw [shadowFloor_miss]; norm_num)]
  refine ⟨hfree, ?_⟩
  rw [shade_single_unoccluded_light Rat.sqrt [shadowFloor] shadowLight ⟨0, 0, 0⟩ shadowFloor
    ⟨0, 0, 0⟩ ⟨0, 0, 1⟩ ⟨0, 0, 1⟩ hfree, shadow_direction]
  simp [shadowFloor, shadowLight, Material.new, Vector.dot, Vector.scale, Vector.sub, Vector.add,
    Vector.elementWiseMultiplication, Vector.divide]

/-- C18 at a registry of two equal occluders: the hypothesis holds and the
theorem applies. -/
theorem nearest_first_on_tie_witness :
    (∃ m ∈ [shadowOccluder 2, shadowOccluder 2],
        0 < m.getShape.rayIntersect Rat.sqrt ⟨⟨0, 0, 0⟩, ⟨0, 0, 1⟩⟩) ∧
      ∃ (i : Nat) (m : Material ℚ) (t : ℚ),
        Material.nearest Rat.sqrt [shadowOccluder 2, shadowOccluder 2] ⟨⟨0, 0, 0⟩, ⟨0, 0, 1⟩⟩
          = (some i, (t : WithTop ℚ)) ∧
        [shadowOccluder 2, shadowOccluder 2][i]? = some m ∧
        m.getShape.rayIntersect Rat.sqrt ⟨⟨0, 0, 0⟩, ⟨0, 0, 1⟩⟩ = t ∧
        ∀ (j : Nat) (m2 : Material ℚ), [shadowOccluder 2, shadowOccluder 2][j]? = some m2 →
          m2.getShape.rayIntersect Rat.sqrt ⟨⟨0, 0, 0⟩, ⟨0, 0, 1⟩⟩ = t → i ≤ j :=
  have h : ∃ m ∈ [shadowOccluder 2, shadowOccluder 2],
      0 < m.getShape.rayIntersect Rat.sqrt ⟨⟨0, 0, 0⟩, ⟨0, 0, 1⟩⟩ :=
    ⟨shadowOccluder 2, by simp, by
      rw [shadowOccluder_hit 2 (by unfold almostZero; norm_num)]
      norm_num⟩
  ⟨h, (nearest_first_on_tie Rat.sqrt _ _ h).1⟩

/-- C20 at the reader of the vertices `(0,0,0)`, `(2,0,0)` and the uniform scale by 3. -/
theorem objReader_linear_transform_keeps_center_witness :
    twoVertexReader.vertices ≠ [] ∧ twoVertexReader.center = twoVertexReader.getCenter ∧
      (tripleMatrix 0 3 = 0 ∧ tripleMatrix 1 3 = 0 ∧ tripleMatrix 2 3 = 0) ∧
      (tripleMatrix 3 0 = 0 ∧ tripleMatrix 3 1 = 0 ∧ tripleMatrix 3 2 = 0 ∧
        tripleMatrix 3 3 = 1) ∧
      (twoVertexReader.applyTransform tripleMatrix).1.getCenter = twoVertexReader.getCenter :=
  have hne : twoVertexReader.vertices ≠ [] := by simp [twoVertexReader, ObjReader.new]
  have hc : twoVertexReader.center = twoVertexReader.getCenter := rfl
  have ht : tripleMatrix 0 3 = 0 ∧ tripleMatrix 1 3 = 0 ∧ tripleMatrix 2 3 = 0 := by
    simp [tripleMatrix, Matrix.scale]
  have hr : tripleMatrix 3 0 = 0 ∧ tripleMatrix 3 1 = 0 ∧ tripleMatrix 3 2 = 0 ∧
      tripleMatrix 3 3 = 1 := by
    simp [tripleMatrix, Matrix.scale]
  ⟨hne, hc, ht, hr,
    (objReader_linear_transform_keeps_center twoVertexReader tripleMatrix hne hc ht hr).1⟩

/-- C13 at the collinear vertices `(0,0,0)`, `(1,0,0)`, `(2,0,0)`. -/
theorem triangle_zero_area_miss_witness :
    ZeroArea (Point.mk (0 : ℚ) 0 0) ⟨1, 0, 0⟩ ⟨2, 0, 0⟩ ∧
      (Triangle.new Rat.sqrt ⟨0, 0, 0⟩ ⟨1, 0, 0⟩ ⟨2, 0, 0⟩ ⟨0, 0, 1⟩).rayIntersect probeRay = -1 :=
  have hz : ZeroArea (Point.mk (0 : ℚ) 0 0) ⟨1, 0, 0⟩ ⟨2, 0, 0⟩ :=
    ⟨2, -1, Or.inl (by norm_num), by
      simp [Point.sub, Vector.scale, Vector.add]⟩
  ⟨hz, (triangle_zero_area_miss Rat.sqrt ⟨0, 0, 0⟩ ⟨1, 0, 0⟩ ⟨2, 0, 0⟩ ⟨0, 0, 1⟩).2 hz probeRay⟩

/-- C19 at the unit sphere and its pole `(0, 0, 1)`. -/
theorem boundingBox_encloses_at_construction_witness :
    (0 : ℚ) ≤ 1 ∧
      ((Point.mk (0 : ℚ) 0 1).sub ⟨0, 0, 0⟩).dot ((Point.mk (0 : ℚ) 0 1).sub ⟨0, 0, 0⟩) ≤ 1 * 1 ∧
      (Sphere.new (Point.mk (0 : ℚ) 0 0) 1).getBoundingBox.contains ⟨0, 0, 1⟩ :=
  have hd : ((Point.mk (0 : ℚ) 0 1).sub ⟨0, 0, 0⟩).dot ((Point.mk (0 : ℚ) 0 1).sub ⟨0, 0, 0⟩)
      ≤ 1 * 1 := by
    simp [Point.sub, Vector.dot]
  ⟨by norm_num, hd,
    ((boundingBox_encloses_at_construction Rat.sqrt).2 ⟨0, 0, 0⟩ 1 (by norm_num)).2 ⟨0, 0, 1⟩ hd⟩

end Theorems

end Raytracing
